import Mathlib

/-!
Verification of the MediaRenamer rule-matching and name-generation engine.

The Python sources under `libs/core` (renamer.py, rule.py, auto_matcher.py,
config_manager.py) are shallowly embedded below.  Strings are modelled as
`List Char` internally with `String` wrappers at the boundaries; the fixed
regular expressions appearing in the code are embedded as executable
character-list scanners; the Python `re` engine applied to a *configurable*
pattern (a rule's `pattern`, `year_pattern`, the configured season patterns)
is abstracted as a function argument, since the engine itself is library
code, not part of this repository.  Scores, computed in Python floats over
small integers and one division, are modelled in `ℚ`.
-/

set_option maxRecDepth 8000

namespace MR

/-- ASCII whitespace, the fragment of the regex class `\s` (and of Python
`str.strip()` / `str.split()` whitespace) that this embedding models. -/
def isWs (c : Char) : Bool :=
  c == ' ' || c == '\t' || c == '\n' || c == '\r' || c == Char.ofNat 11 || c == Char.ofNat 12

/-- The characters `<>:"/\|?*` that `clean_filename` removes or replaces. -/
def isIllegal (c : Char) : Bool :=
  c == '<' || c == '>' || c == ':' || c == '\"' || c == '/' ||
  c == '\\' || c == '|' || c == '?' || c == '*'

/-- The single-quote character, written by code point to keep it out of
string literals. -/
def quoteChar : Char := Char.ofNat 39

/-- One character of the illegal-character pass of `clean_filename`
(renamer.py lines 40-47): `:` `/` `\` become `-`; `<` `>` `|` `?` `*` are
dropped; a double quote becomes a single quote.  The Python loop replaces
one illegal character at a time, but since no replacement character is
itself illegal the loop is equivalent to this single pass. -/
def sanChar (c : Char) : Option Char :=
  if c == '<' || c == '>' || c == '|' || c == '?' || c == '*' then none
  else if c == ':' || c == '/' || c == '\\' then some '-'
  else if c == '\"' then some quoteChar
  else some c

/-- The whole illegal-character pass. -/
def sanitizeChars (l : List Char) : List Char := l.filterMap sanChar

/-- Model of `re.sub(p+, r, s)` for a single-character class `p`: every maximal run
of characters satisfying `p` is replaced by the single character `r`
(renamer.py lines 50-52). -/
def collapseRun (p : Char → Bool) (r : Char) : List Char → List Char
  | [] => []
  | [c] => if p c then [r] else [c]
  | c :: d :: rest =>
    if p c && p d then collapseRun p r (d :: rest)
    else (if p c then r else c) :: collapseRun p r (d :: rest)

/-- Dot character class for the run-collapsing passes. -/
def isDot (c : Char) : Bool := c == '.'

/-- Hyphen character class for the run-collapsing passes. -/
def isDash (c : Char) : Bool := c == '-'

/-- The characters stripped by `cleaned.strip(' .-')`. -/
def isStripChar (c : Char) : Bool := c == ' ' || c == '.' || c == '-'

/-- Python `str.strip` with an explicit character class: drop matching
characters from both ends. -/
def pyStrip (p : Char → Bool) (l : List Char) : List Char :=
  List.rdropWhile p (l.dropWhile p)

/-- Index of the last `.` in a name, if any. -/
def lastDotIdx : List Char → Option Nat
  | [] => none
  | c :: cs =>
    match lastDotIdx cs with
    | some i => some (i + 1)
    | none => if c == '.' then some 0 else none

/-- The split pathlib performs on a file *name* into stem and suffix: the suffix
starts at the last dot, provided that dot is neither the first nor the last
character of the name; otherwise the suffix is empty. -/
def pySplitExt (l : List Char) : List Char × List Char :=
  match lastDotIdx l with
  | some i => if 0 < i ∧ i + 1 < l.length then (l.take i, l.drop i) else (l, [])
  | none => (l, [])

/-- The Windows reserved device names checked by `clean_filename`
(renamer.py line 62). -/
def reservedNames : List (List Char) :=
  ["CON".toList, "PRN".toList, "AUX".toList, "NUL".toList,
   "COM1".toList, "COM2".toList, "COM3".toList, "COM4".toList, "COM5".toList,
   "COM6".toList, "COM7".toList, "COM8".toList, "COM9".toList,
   "LPT1".toList, "LPT2".toList, "LPT3".toList, "LPT4".toList, "LPT5".toList,
   "LPT6".toList, "LPT7".toList, "LPT8".toList, "LPT9".toList]

/-- The check `Path(cleaned).stem.upper() in reserved_names` (renamer.py lines 63-64).
`Char.toUpper` matches Python `str.upper` on ASCII, which covers every
reserved name. -/
def isReservedStem (l : List Char) : Bool :=
  decide ((pySplitExt l).1.map Char.toUpper ∈ reservedNames)

/-- Python slicing `l[:k]` for a possibly negative bound `k`. -/
def pySliceTo (l : List Char) (k : Int) : List Char :=
  if 0 ≤ k then l.take k.toNat else l.take (l.length - (-k).toNat)

/-- The length-limiting step of `clean_filename` (renamer.py lines 68-71):
keep the suffix and cut the stem to `200 - len(suffix)` characters. -/
def truncate200 (l : List Char) : List Char :=
  pySliceTo (pySplitExt l).1 (200 - ((pySplitExt l).2.length : Int)) ++ (pySplitExt l).2

/-- The character-substitution and run-collapsing passes of `clean_filename`
(renamer.py lines 36-52): illegal characters, then whitespace runs, dot runs
and hyphen runs. -/
def preStrip (l : List Char) : List Char :=
  collapseRun isDash '-' (collapseRun isDot '.' (collapseRun isWs ' ' (sanitizeChars l)))

/-- The pipeline up to and including `cleaned.strip(' .-')` (renamer.py line 55). -/
def stripped (l : List Char) : List Char := pyStrip isStripChar (preStrip l)

/-- The pipeline up to and including the empty-result placeholder
(renamer.py lines 58-59). -/
def placed (l : List Char) : List Char :=
  if (stripped l).isEmpty then "unnamed".toList else stripped l

/-- Steps 2-6 of `clean_filename` (renamer.py lines 36-65): everything except
the final length limit, ending with the reserved-name guard. -/
def cleanCore (l : List Char) : List Char :=
  if isReservedStem (placed l) then '_' :: placed l else placed l

/-- The filename sanitizer `MediaRenamer.clean_filename` (renamer.py lines 21-73). -/
def clean_filename (s : String) : String :=
  if s = "" then s
  else
    let z := cleanCore s.toList
    String.mk (if 200 < z.length then truncate200 z else z)

/-- No two adjacent characters of the list both satisfy `p`. -/
def NoRun (p : Char → Bool) (l : List Char) : Prop :=
  List.Chain' (fun a b => ¬(p a = true ∧ p b = true)) l

instance noRunDec (p : Char → Bool) (l : List Char) : Decidable (NoRun p l) :=
  inferInstanceAs (Decidable (List.Chain' (fun a b => ¬(p a = true ∧ p b = true)) l))

/-- All the facts about a list that make every pass of the sanitizer pipeline
leave it unchanged (apart from the length limit). -/
structure CleanInv (l : List Char) : Prop where
  nonempty : l ≠ []
  noIllegal : ∀ c ∈ l, isIllegal c = false
  wsRep : ∀ c ∈ l, isWs c = true → c = ' '
  wsRun : NoRun isWs l
  dotRun : NoRun isDot l
  dashRun : NoRun isDash l
  headOk : ∀ c, l.head? = some c → isStripChar c = false
  lastOk : ∀ c, l.getLast? = some c → isStripChar c = false
  notReserved : isReservedStem l = false

/-- Result of a successful search by a compiled pattern: the whole matched
text and the pattern's capture groups in order.  A group that exists in the
pattern but did not participate in the match is none, following Python re
semantics. -/
structure MatchData where
  whole : String
  groups : List (Option String)

/-- Python match.group(i): group 0 is the whole match, group i for i ≥ 1 the
i-th capture group, none when the group did not participate. -/
def MatchData.group (m : MatchData) (i : Nat) : Option String :=
  if i = 0 then some m.whole else m.groups.getD (i - 1) none

/-- One fallback_fields entry of special_handling: an ordered list of source
names or literal defaults, or a scalar.  The code skips non-string scalars
inside a list, so the model keeps only string entries; a non-string scalar
value is modelled by nonstrScalar (the code substitutes the empty string). -/
inductive FallbackSources where
  | srcList (srcs : List String)
  | scalar (s : String)
  | nonstrScalar

/-- Special-handling directives of a rule (rule.py).  Each optional field is
present exactly when the corresponding key is present in the JSON dict.  The
regex-valued year_pattern is abstracted as the predicate that
re.search(year_pattern, s) succeeds.  extraKeys models any further keys,
which matter only for the dict's truthiness. -/
structure SpecialHandling where
  uppercase_fields : Option (List String)
  fallback_fields : Option (List (String × FallbackSources))
  year_pattern : Option (String → Bool)
  max_episode : Option Int
  preserve_full_extension : Option Bool
  extraKeys : List String

/-- The Python truthiness of the special_handling dict: at least one key. -/
def SpecialHandling.isTruthy (sh : SpecialHandling) : Bool :=
  sh.uppercase_fields.isSome || sh.fallback_fields.isSome || sh.year_pattern.isSome ||
  sh.max_episode.isSome || sh.preserve_full_extension.isSome || !sh.extraKeys.isEmpty

/-- A special_handling dict with no keys at all. -/
def shEmpty : SpecialHandling := ⟨none, none, none, none, none, []⟩

/-- The configuration switches served by ConfigManager (config_manager.py).
Each season-detection regex is abstracted as a matcher from a path segment
to the first match's capture group. -/
structure Config where
  parentEnabled : Bool
  seriesEnabled : Bool
  seasonEnabled : Bool
  customSeasonEnabled : Bool
  defaultSeason : String
  seasonPatterns : List (List Char → Option (List Char))

/-- A rule (rule.py RegexRule).  The compiled pattern's search behaviour is
abstracted as a function from filename to optional match data, since the
regex engine itself is Python library code; the rule's config_manager is the
cfg field. -/
structure RegexRule where
  name : String
  pattern : String
  search : String → Option MatchData
  groups : List (String × Nat)
  output_format : String
  special : SpecialHandling
  cfg : Config

/-- RegexRule.match (rule.py lines 40-53): none when the search fails,
otherwise one entry per declared group; an index beyond the pattern's group
count yields the empty string, otherwise the group's value (which is none
for a non-participating group). -/
def RegexRule.rmatch (r : RegexRule) (filename : String) :
    Option (List (String × Option String)) :=
  match r.search filename with
  | none => none
  | some m =>
      some (r.groups.map (fun g =>
        if g.2 ≤ m.groups.length then (g.1, m.group g.2) else (g.1, some "")))

/-- Lower-casing used to model re.IGNORECASE on the ASCII patterns. -/
def lc (c : Char) : Char := c.toLower

/-- Case-insensitive literal: if the target starts with the (lower-case)
pattern, return the rest. -/
def dropLitCI (pat : List Char) (t : List Char) : Option (List Char) :=
  if (t.take pat.length).map lc == pat then some (t.drop pat.length) else none

/-- Matcher at one position for the regex S\d+E\d+ with IGNORECASE. -/
def matchSdEdAt (t : List Char) : Bool :=
  match t with
  | c :: rest =>
      lc c == 's' &&
        (let ds := rest.takeWhile Char.isDigit
         !ds.isEmpty &&
           (match rest.drop ds.length with
            | e :: rest2 => lc e == 'e' && rest2.head?.any Char.isDigit
            | [] => false))
  | [] => false

/-- Matcher at one position for Season\s*\d+\s*Episode\s*\d+ (IGNORECASE). -/
def matchSeasonEpisodeAt (t : List Char) : Bool :=
  match dropLitCI "season".toList t with
  | none => false
  | some r1 =>
      let r2 := r1.dropWhile isWs
      let ds := r2.takeWhile Char.isDigit
      !ds.isEmpty &&
        (let r3 := (r2.drop ds.length).dropWhile isWs
         match dropLitCI "episode".toList r3 with
         | none => false
         | some r4 => (r4.dropWhile isWs).head?.any Char.isDigit)

/-- Matcher at one position for 第\d+季\s*第\d+集. -/
def matchCnSeasonEpisodeAt (t : List Char) : Bool :=
  match t with
  | c :: rest =>
      c == '第' &&
        (let ds := rest.takeWhile Char.isDigit
         !ds.isEmpty &&
           (match rest.drop ds.length with
            | j :: rest2 =>
                j == '季' &&
                  (let r3 := rest2.dropWhile isWs
                   match r3 with
                   | d2 :: r4 =>
                       d2 == '第' &&
                         (let ds2 := r4.takeWhile Char.isDigit
                          !ds2.isEmpty &&
                            ((r4.drop ds2.length).head?.any (fun x => x == '集')))
                   | [] => false)
            | [] => false))
  | [] => false

/-- Matcher at one position for 第\d+X where X is the given closing
character (集 or 話). -/
def matchCnCounterAt (closing : Char) (t : List Char) : Bool :=
  match t with
  | c :: rest =>
      c == '第' &&
        (let ds := rest.takeWhile Char.isDigit
         !ds.isEmpty && ((rest.drop ds.length).head?.any (fun x => x == closing)))
  | [] => false

/-- Matcher at one position for Episode\s*\d+ (IGNORECASE). -/
def matchEpisodeNumAt (t : List Char) : Bool :=
  match dropLitCI "episode".toList t with
  | none => false
  | some r1 => (r1.dropWhile isWs).head?.any Char.isDigit

/-- Matcher at one position for EP\d+ (IGNORECASE). -/
def matchEPNumAt (t : List Char) : Bool :=
  match dropLitCI "ep".toList t with
  | none => false
  | some r1 => r1.head?.any Char.isDigit

/-- Matcher at one position for \(\d{4}\). -/
def matchParenYearAt (t : List Char) : Bool :=
  match t with
  | '(' :: d1 :: d2 :: d3 :: d4 :: ')' :: _ =>
      d1.isDigit && d2.isDigit && d3.isDigit && d4.isDigit
  | _ => false

/-- Matcher at one position for \d{4}. -/
def matchFourDigitsAt (t : List Char) : Bool :=
  match t with
  | d1 :: d2 :: d3 :: d4 :: _ => d1.isDigit && d2.isDigit && d3.isDigit && d4.isDigit
  | _ => false

/-- Matcher at one position for an opening bracket later closed on the same
line, the regexes \[.*?\] and \(.*?\). -/
def matchBracketAt (o c : Char) (t : List Char) : Bool :=
  match t with
  | x :: rest => x == o && ((rest.takeWhile (fun ch => ch != '\n')).contains c)
  | [] => false

/-- The anchored regex of a leading bare title [^\[\]\(\)]+ at the start. -/
def matchLeadingName (l : List Char) : Bool :=
  match l with
  | c :: _ => !(c == '[' || c == ']' || c == '(' || c == ')')
  | [] => false

/-- Matcher at one position for \.W\. with a lower-case literal W
(IGNORECASE), as in the patterns for .OP. / .ED. / .OVA. / .MENU. . -/
def matchDotLitCI (w : List Char) (t : List Char) : Bool :=
  match t with
  | x :: rest =>
      x == '.' &&
        (match dropLitCI w rest with
         | some r2 => r2.head?.any (fun ch => ch == '.')
         | none => false)
  | [] => false

/-- Existence of a match at some position, the semantics of re.search for
patterns without anchors. -/
def reSearch (pAt : List Char → Bool) (l : List Char) : Bool := l.tails.any pAt

/-- The season_episode feature of analyze_filename (auto_matcher.py). -/
def featSeasonEpisode (l : List Char) : Bool :=
  reSearch matchSdEdAt l || reSearch matchSeasonEpisodeAt l ||
    reSearch matchCnSeasonEpisodeAt l

/-- The episode_only feature of analyze_filename. -/
def featEpisodeOnly (l : List Char) : Bool :=
  reSearch (matchCnCounterAt '集') l || reSearch (matchCnCounterAt '話') l ||
    reSearch matchEpisodeNumAt l || reSearch matchEPNumAt l

/-- The year feature of analyze_filename. -/
def featYear (l : List Char) : Bool :=
  reSearch matchParenYearAt l || reSearch matchFourDigitsAt l

/-- The quality feature of analyze_filename. -/
def featQuality (l : List Char) : Bool :=
  reSearch (matchBracketAt '[' ']') l || reSearch (matchBracketAt '(' ')') l

/-- The series_name feature of analyze_filename. -/
def featSeriesName (l : List Char) : Bool :=
  reSearch (matchBracketAt '[' ']') l || matchLeadingName l

/-- The japanese_format feature of analyze_filename. -/
def featJapanese (l : List Char) : Bool :=
  reSearch (matchCnCounterAt '話') l || reSearch (matchDotLitCI "op".toList) l ||
    reSearch (matchDotLitCI "ed".toList) l || reSearch (matchDotLitCI "ova".toList) l ||
    reSearch (matchDotLitCI "menu".toList) l

/-- The hand-tuned rule priority weights of RuleMatcher (auto_matcher.py
lines 20-50). -/
def rule_weights : List (String × ℚ) :=
  [("乱马1/2专用格式", 25), ("乱马1/2特殊格式", 24), ("CASO特殊格式", 12),
   ("CASO普通格式", 12), ("CASO完整格式", 16), ("Evangelion特殊格式", 22),
   ("Evangelion范围格式", 21), ("通用方括号格式", 18), ("通用点分隔格式", 19),
   ("通用横线分隔格式", 20), ("通用下划线分隔格式", 21), ("HYSUB_OAD格式", 12),
   ("HYSUB普通格式", 12), ("YYDM-11FANS格式", 12), ("异域字幕组格式", 12),
   ("DMG字幕组格式", 12), ("Cowboy Bebop智能格式", 15), ("通用字幕组格式", 14),
   ("带季数剧集格式", 10), ("日式剧集格式", 9), ("日式OPED格式", 8),
   ("日式OVA格式", 8), ("日式菜单格式", 7), ("标准剧集格式", 8), ("电影格式", 7),
   ("纪录片格式", 6), ("综合通用格式", 1), ("简单数字格式-保留技术信息", 5),
   ("简单数字格式", 3)]

/-- Python dict .get(name, 5) over the weight table. -/
def lookupWeight (nm : String) : ℚ :=
  ((rule_weights.find? (fun p => p.1 == nm)).map Prod.snd).getD 5

/-- Python substring containment, the operator needle in hay on str. -/
def strContains (needle hay : List Char) : Bool :=
  hay.tails.any (fun t => needle.isPrefixOf t)

/-- The Python truthiness test v and v.strip() applied to a match value. -/
def truthyStripped (v : Option String) : Bool :=
  match v with
  | none => false
  | some s => !s.toList.isEmpty && !(pyStrip isWs s.toList).isEmpty

/-- The per-family feature bonuses of calculate_rule_score
(auto_matcher.py lines 131-166), an elif chain on substrings of the rule
name. -/
def analyzeBonus (rname : String) (f : List Char) : ℚ :=
  if strContains "带季数剧集格式".toList rname.toList then
    (if featSeasonEpisode f then 20 else if featEpisodeOnly f then 10 else 0)
  else if strContains "日式剧集格式".toList rname.toList then
    (if featJapanese f then 25 else 0) + (if featEpisodeOnly f then 15 else 0)
  else if strContains "日式OPED格式".toList rname.toList then
    (if featJapanese f then 20 else 0)
  else if strContains "日式OVA格式".toList rname.toList then
    (if featJapanese f then 20 else 0)
  else if strContains "日式菜单格式".toList rname.toList then
    (if featJapanese f then 15 else 0)
  else if strContains "标准剧集格式".toList rname.toList then
    (if featEpisodeOnly f then 15 else 0) + (if featSeriesName f then 10 else 0)
  else if strContains "电影格式".toList rname.toList then
    (if featYear f then 15 else 0) + (if featQuality f then 10 else 0)
  else if strContains "纪录片格式".toList rname.toList then
    (if featEpisodeOnly f then 15 else 0)
  else if strContains "简单数字格式".toList rname.toList then 5
  else 0

/-- Python min on two rationals, kept as an explicit conditional so that it
evaluates by reduction. -/
def pyMin (a b : ℚ) : ℚ := if a ≤ b then a else b

/-- RuleMatcher.calculate_rule_score (auto_matcher.py lines 106-176), with
scores in ℚ in place of Python floats; the guard if not match_result is
Python truthiness, so both a failed search and an empty match dict (a rule
declaring no groups) score 0. -/
def calculate_rule_score (r : RegexRule) (filename : String) : ℚ :=
  match r.rmatch filename with
  | none => 0
  | some mr =>
      if mr.isEmpty then 0
      else
      let score := lookupWeight r.name + analyzeBonus r.name filename.toList
      let matchedGroups : ℚ := ((mr.filter (fun p => truthyStripped p.2)).length : ℚ)
      let totalGroups : ℚ := ((r.groups.length : Nat) : ℚ)
      let score2 :=
        if 0 < r.groups.length then score + matchedGroups / totalGroups * 10 else score
      pyMin score2 100

/-- The loop body of RuleMatcher.find_best_rule: a strictly greater score
replaces the current best. -/
def fbStep (filename : String)
    (acc : Option RegexRule × ℚ × List (String × Option String)) (r : RegexRule) :
    Option RegexRule × ℚ × List (String × Option String) :=
  let score := calculate_rule_score r filename
  if acc.2.1 < score then (some r, score, (r.rmatch filename).getD []) else acc

/-- RuleMatcher.find_best_rule (auto_matcher.py lines 178-203). -/
def find_best_rule (filename : String) (rules : List RegexRule) :
    Option RegexRule × ℚ × List (String × Option String) :=
  if rules.isEmpty then (none, 0, [])
  else rules.foldl (fbStep filename) (none, 0, [])

/-- Season pattern S(\d+) with IGNORECASE: leftmost occurrence of the
letter s followed by digits; the captured group is the maximal digit run. -/
def seasonPatS (l : List Char) : Option (List Char) :=
  l.tails.findSome? (fun t =>
    match t with
    | c :: rest =>
        if lc c == 's' then
          (let ds := rest.takeWhile Char.isDigit
           if ds.isEmpty then none else some ds)
        else none
    | [] => none)

/-- Season pattern Season\s*(\d+) with IGNORECASE. -/
def seasonPatSeasonWord (l : List Char) : Option (List Char) :=
  l.tails.findSome? (fun t =>
    match dropLitCI "season".toList t with
    | none => none
    | some r1 =>
        let r2 := r1.dropWhile isWs
        let ds := r2.takeWhile Char.isDigit
        if ds.isEmpty then none else some ds)

/-- Season pattern 第(\d+)季. -/
def seasonPatCn (l : List Char) : Option (List Char) :=
  l.tails.findSome? (fun t =>
    match t with
    | c :: rest =>
        if c == '第' then
          (let ds := rest.takeWhile Char.isDigit
           if ds.isEmpty then none
           else if (rest.drop ds.length).head?.any (fun x => x == '季') then some ds
           else none)
        else none
    | [] => none)

/-- The default season_patterns list (config.py lines 40-44). -/
def defaultSeasonPatterns : List (List Char → Option (List Char)) :=
  [seasonPatS, seasonPatSeasonWord, seasonPatCn]

/-- The default configuration (config.py lines 33-45). -/
def cfgDefault : Config := ⟨true, true, true, true, "01", defaultSeasonPatterns⟩

/-- A rule whose pattern never matches, for witnesses. -/
def demoNoMatch : RegexRule :=
  ⟨"无匹配规则", "x", fun _ => none, [], "out", shEmpty, cfgDefault⟩

/-- A rule modelling the pattern (a)(b)? with fields x and y: on input a the
optional second group does not participate, so Python yields None for it. -/
def c4Rule : RegexRule :=
  ⟨"演示规则", "(a)(b)?",
   fun s => if s = "a" then some ⟨"a", [some "a", none]⟩ else none,
   [("x", 1), ("y", 2)], "{x}", shEmpty, cfgDefault⟩

/-- Like c4Rule but declaring a field with group index 3, beyond the two
pattern groups. -/
def c4RuleB : RegexRule :=
  ⟨"演示规则B", "(a)(b)?",
   fun s => if s = "a" then some ⟨"a", [some "a", none]⟩ else none,
   [("x", 1), ("z", 3)], "{x}", shEmpty, cfgDefault⟩

/-- A rule that matches everything with one always-filled declared group,
for witnesses. -/
def demoA : RegexRule :=
  ⟨"规则甲", "(v)", fun _ => some ⟨"v", [some "v"]⟩, [("x", 1)], "out", shEmpty, cfgDefault⟩

/-- A second copy with a different name, scoring the same as demoA. -/
def demoB : RegexRule :=
  ⟨"规则乙", "(v)", fun _ => some ⟨"v", [some "v"]⟩, [("x", 1)], "out", shEmpty, cfgDefault⟩

/-- A rule that matches with an empty group map: its match dict is empty,
which Python truthiness treats as no match. -/
def demoEmpty : RegexRule :=
  ⟨"规则空", "v", fun _ => some ⟨"v", []⟩, [], "out", shEmpty, cfgDefault⟩

/-- Python str.zfill for unsigned content: left-pad with zeros to the
width (sign handling, which no caller exercises, is not modelled). -/
def zfill (w : Nat) (l : List Char) : List Char :=
  List.replicate (w - l.length) '0' ++ l

/-- The parts of a POSIX path as produced by pathlib: the root as a leading
"/" part, then the non-empty segments. -/
def pathParts (s : String) : List String :=
  let segs := (s.toList.splitOn '/').filter (fun seg => !seg.isEmpty)
  let names := segs.map (fun seg => String.mk seg)
  if s.toList.head?.any (fun c => c == '/') then "/" :: names else names

/-- The inner pattern loop of the extraction functions: the first season
pattern that matches the segment wins and its capture group is returned. -/
def firstPatternCapture (pats : List (List Char → Option (List Char)))
    (part : List Char) : Option (List Char) :=
  pats.findSome? (fun p => p part)

/-- The season loop: segments are scanned from the rightmost to the root and
the first match ends the scan; the captured digits are zero-padded to two. -/
def seasonScan (pats : List (List Char → Option (List Char)))
    (parts : List (List Char)) : Option (List Char) :=
  parts.reverse.findSome? (fun part => (firstPatternCapture pats part).map (zfill 2))

/-- The series loop walks from the left and returns the predecessor of the
first season-matching segment at index at least 1; a match at index 0 does
not stop the walk. -/
def seriesScanAux (pats : List (List Char → Option (List Char))) :
    List Char → List (List Char) → Option (List Char)
  | _, [] => none
  | prev, cur :: rest =>
      if (firstPatternCapture pats cur).isSome then some prev
      else seriesScanAux pats cur rest

/-- The series-name scan of the extraction functions. -/
def seriesScan (pats : List (List Char → Option (List Char))) :
    List (List Char) → Option (List Char)
  | [] => none
  | p0 :: rest => seriesScanAux pats p0 rest

/-- RegexRule.extract_parent_info (rule.py lines 104-150). -/
def extract_parent_info (cfg : Config) (file_path : String) :
    List (String × String) :=
  if !cfg.parentEnabled then []
  else
    let parts := (pathParts file_path).map String.toList
    let seasonOpt := if cfg.seasonEnabled then seasonScan cfg.seasonPatterns parts else none
    let d1 : List (String × String) :=
      match seasonOpt with
      | some ds => [("season", String.mk ds)]
      | none => []
    if cfg.seriesEnabled ∧ seasonOpt.isSome then
      match seriesScan cfg.seasonPatterns parts with
      | some sn => d1 ++ [("series_name", String.mk sn)]
      | none => d1
    else d1

/-- RegexRule.get_folder_recognition_info (rule.py lines 55-102), the
preview-only variant keyed with series instead of series_name. -/
def get_folder_recognition_info (cfg : Config) (file_path : String) :
    List (String × String) :=
  if file_path = "" then []
  else if !cfg.parentEnabled then []
  else
    let parts := (pathParts file_path).map String.toList
    let seasonOpt := seasonScan cfg.seasonPatterns parts
    let d1 : List (String × String) :=
      match seasonOpt with
      | some ds => [("season", String.mk ds)]
      | none => []
    if seasonOpt.isSome then
      match seriesScan cfg.seasonPatterns parts with
      | some sn => d1 ++ [("series", String.mk sn)]
      | none => d1
    else d1

/-- Lookup in an insertion-ordered dict modelled as an association list. -/
def dlookup (d : List (String × String)) (k : String) : Option String :=
  (d.find? (fun p => p.1 == k)).map Prod.snd

/-- Python key-membership test on the dict model. -/
def dmem (d : List (String × String)) (k : String) : Bool :=
  (d.find? (fun p => p.1 == k)).isSome

/-- Python dict assignment: overwrite the key in place or append it. -/
def dset (d : List (String × String)) (k : String) (v : String) :
    List (String × String) :=
  if dmem d k then d.map (fun p => if p.1 == k then (k, v) else p) else d ++ [(k, v)]

/-- Step 1 of generate_output: null or blank captured values become the
empty string (rule.py lines 161-166). -/
def normalizeInfo (info : List (String × Option String)) : List (String × String) :=
  info.map (fun p =>
    match p.2 with
    | none => (p.1, "")
    | some v => if (pyStrip isWs v.toList).isEmpty then (p.1, "") else (p.1, v))

/-- Python str.upper on ASCII letters. -/
def pyUpper (s : String) : String := String.mk (s.toList.map Char.toUpper)

/-- The uppercase_fields pass (rule.py lines 169-172). -/
def applyUppercase (sh : SpecialHandling) (d : List (String × String)) :
    List (String × String) :=
  match sh.uppercase_fields with
  | none => d
  | some fields =>
      fields.foldl
        (fun acc fld =>
          if dmem acc fld then dset acc fld (pyUpper ((dlookup acc fld).getD "")) else acc)
        d

/-- The source loop of one fallback_fields entry (rule.py lines 182-195). -/
def applyFallbackSrc (d : List (String × String)) (target : String) :
    List String → List (String × String)
  | [] => dset d target ""
  | src :: rest =>
      if dmem d src ∧ !(pyStrip isWs ((dlookup d src).getD "").toList).isEmpty then
        dset d target ((dlookup d src).getD "")
      else if !(dmem d src) then dset d target src
      else applyFallbackSrc d target rest

/-- One fallback_fields entry (rule.py lines 177-198). -/
def applyFallbackOne (d : List (String × String)) (target : String)
    (srcs : FallbackSources) : List (String × String) :=
  let current := (dlookup d target).getD ""
  if !(pyStrip isWs current.toList).isEmpty then d
  else
    match srcs with
    | .srcList l => applyFallbackSrc d target l
    | .scalar s => dset d target s
    | .nonstrScalar => dset d target ""

/-- The fallback_fields pass (rule.py lines 175-198). -/
def applyFallback (sh : SpecialHandling) (d : List (String × String)) :
    List (String × String) :=
  match sh.fallback_fields with
  | none => d
  | some fb => fb.foldl (fun acc p => applyFallbackOne acc p.1 p.2) d

/-- The parent-folder override pass (rule.py lines 200-208): a folder series
name overrides the series field and a folder season is stored under
parent_season. -/
def applyParentInfo (parent : List (String × String)) (d : List (String × String)) :
    List (String × String) :=
  if parent.isEmpty then d
  else
    let d1 :=
      match (parent.find? (fun p => p.1 == "series_name")).map Prod.snd with
      | some sn => if sn ≠ "" then dset d "series" sn else d
      | none => d
    match (parent.find? (fun p => p.1 == "season")).map Prod.snd with
    | some ss => if ss ≠ "" then dset d1 "parent_season" ss else d1
    | none => d1

/-- The empty-episode default (rule.py lines 211-212). -/
def applyDefaultEpisode (d : List (String × String)) : List (String × String) :=
  if dmem d "episode" ∧ (dlookup d "episode").getD "" = "" then dset d "episode" "01"
  else d

/-- Decimal value of a digit string. -/
def digitsToNat (l : List Char) : Nat :=
  l.foldl (fun acc c => acc * 10 + (c.toNat - 48)) 0

/-- The year / oversized-episode reinterpretation block (rule.py lines
215-250).  The OVA/SP/END detection at lines 219-227 re-assigns the episode
to itself, a no-op, so only the digit-guarded part remains. -/
def episodeSpecial (sh : SpecialHandling) (d : List (String × String)) :
    List (String × String) :=
  if dmem d "episode" ∧ sh.isTruthy then
    let ep := (dlookup d "episode").getD ""
    if ep ≠ "" ∧ ep.toList.all Char.isDigit then
      match sh.year_pattern with
      | some ypat =>
          if ypat ep then
            let d1 := dset d "episode" "01"
            if (dlookup d1 "title").getD "" = "" then dset d1 "title" ("(" ++ ep ++ ")")
            else d1
          else d
      | none =>
          match sh.max_episode with
          | some maxEp =>
              if maxEp < (digitsToNat ep.toList : Int) then
                let d1 := dset d "episode" "01"
                if (dlookup d1 "title").getD "" = "" then dset d1 "title" ("(" ++ ep ++ ")")
                else d1
              else d
          | none => d
    else d
  else d

/-- The opening and closing brace characters, by code point. -/
def lbrace : Char := Char.ofNat 123

/-- The closing brace character. -/
def rbrace : Char := Char.ofNat 125

/-- Outcome of template rendering: a missing named field raises KeyError in
Python, anything structurally unsupported raises another exception. -/
inductive RenderErr where
  | missing (field : String)
  | malformed
deriving DecidableEq

/-- A string format spec of the shape [[fill]align][width] applied to a
string value, covering the zero-padding directives of the rule formats
(such as 0>2); other spec forms are applied as identity. -/
def applySpec (spec : List Char) (v : List Char) : List Char :=
  match spec with
  | [] => v
  | _ =>
      let fa :=
        if spec.length ≥ 2 ∧ ((spec.getD 1 ' ') == '<' || (spec.getD 1 ' ') == '>' ||
            (spec.getD 1 ' ') == '^') then
          (spec.getD 0 ' ', spec.getD 1 ' ', spec.drop 2)
        else if (spec.getD 0 ' ') == '<' || (spec.getD 0 ' ') == '>' ||
            (spec.getD 0 ' ') == '^' then
          (' ', spec.getD 0 ' ', spec.drop 1)
        else (' ', '<', spec)
      let w := digitsToNat (fa.2.2.takeWhile Char.isDigit)
      if w ≤ v.length then v
      else
        let pad := List.replicate (w - v.length) fa.1
        if fa.2.1 == '>' then pad ++ v
        else if fa.2.1 == '^' then
          let left := (w - v.length) / 2
          List.replicate left fa.1 ++ v ++ List.replicate (w - v.length - left) fa.1
        else v ++ pad

/-- Python str.format over the dict model: named fields with optional specs;
empty or numeric (positional) names and unbalanced braces are malformed and
raise exceptions other than KeyError. -/
def renderFormatF (d : List (String × String)) :
    Nat → List Char → Except RenderErr (List Char)
  | 0, _ => .error .malformed
  | _ + 1, [] => .ok []
  | fuel + 1, c :: rest =>
      if c == lbrace then
        if rest.head?.any (fun x => x == lbrace) then
          (renderFormatF d fuel rest.tail).map (fun r => lbrace :: r)
        else
          let name := rest.takeWhile (fun ch => !(ch == rbrace || ch == ':'))
          if name.isEmpty || name.all Char.isDigit then .error .malformed
          else
            match rest.drop name.length with
            | [] => .error .malformed
            | a :: rest3 =>
                if a == rbrace then
                  match dlookup d (String.mk name) with
                  | some v => (renderFormatF d fuel rest3).map (fun r => v.toList ++ r)
                  | none => .error (.missing (String.mk name))
                else
                  let spec := rest3.takeWhile (fun ch => !(ch == rbrace))
                  match rest3.drop spec.length with
                  | [] => .error .malformed
                  | _ :: rest5 =>
                      match dlookup d (String.mk name) with
                      | some v =>
                          (renderFormatF d fuel rest5).map
                            (fun r => applySpec spec v.toList ++ r)
                      | none => .error (.missing (String.mk name))
      else if c == rbrace then
        if rest.head?.any (fun x => x == rbrace) then
          (renderFormatF d fuel rest.tail).map (fun r => rbrace :: r)
        else .error .malformed
      else (renderFormatF d fuel rest).map (fun r => c :: r)

/-- Python str.format over the dict model with fuel equal to the template
length: every scanner step consumes at least one character, so the fuel
never runs out on the wrapper below. -/
def renderFormat (d : List (String × String)) (l : List Char) :
    Except RenderErr (List Char) :=
  renderFormatF d l.length l

/-- The season priority chain of generate_output (rule.py lines 259-270):
a truthy custom season, zero-padded, else the parent_season entry, else the
configured default season when enabled. -/
def resolveSeason (cfg : Config) (cs : Option String) (d : List (String × String)) :
    Option String :=
  if cs.isSome ∧ cs ≠ some "" then cs.map (fun s => String.mk (zfill 2 s.toList))
  else if dmem d "parent_season" then dlookup d "parent_season"
  else if cfg.customSeasonEnabled then some cfg.defaultSeason
  else none

/-- Scanner for re.sub(S\d+, S{rep}, out): the flag records being inside
the digit run of a just-replaced token, which re.sub does not rescan. -/
def subSeasonAux (rep : List Char) : Bool → List Char → List Char
  | _, [] => []
  | skipping, c :: rest =>
      if skipping ∧ c.isDigit then subSeasonAux rep true rest
      else if c == 'S' ∧ rest.head?.any Char.isDigit then
        ('S' :: rep) ++ subSeasonAux rep true rest
      else c :: subSeasonAux rep false rest

/-- Model of re.sub(S\d+, S{rep}, out): every occurrence of a capital S
followed by digits is replaced, left to right, without rescanning the
replacement. -/
def subSeason (rep : List Char) (l : List Char) : List Char := subSeasonAux rep false l

/-- The application of the resolved season (rule.py lines 273-274): a falsy
resolved value leaves the output alone. -/
def applySeason (sn : Option String) (out : List Char) : List Char :=
  match sn with
  | some s => if s ≠ "" then subSeason s.toList out else out
  | none => out

/-- Fuelled scanner for re.sub(S(\d+)E[^-\s]*, S\1 {ep}, out); every step
consumes at least one character, so fuel equal to the length suffices. -/
def subSEF (epVal : List Char) : Nat → List Char → List Char
  | 0, l => l
  | _ + 1, [] => []
  | fuel + 1, c :: rest =>
      if c == 'S' ∧ !(rest.takeWhile Char.isDigit).isEmpty ∧
          ((rest.drop (rest.takeWhile Char.isDigit).length).head?.any (fun e => e == 'E')) then
        let ds := rest.takeWhile Char.isDigit
        let rest2 := (rest.drop ds.length).drop 1
        let tk := rest2.takeWhile (fun ch => !(ch == '-' || isWs ch))
        ('S' :: ds) ++ (' ' :: epVal) ++ subSEF epVal fuel (rest2.drop tk.length)
      else c :: subSEF epVal fuel rest

/-- Model of re.sub(S(\d+)E[^-\s]*, S\1 {ep}, out) used for the OVA/SP
display rewrite (rule.py line 284). -/
def subSE (epVal : List Char) (l : List Char) : List Char := subSEF epVal l.length l

/-- The OVA/SP/SPECIAL display pass (rule.py lines 277-287); END episodes
are left unchanged. -/
def applySpecialDisplay (d : List (String × String)) (out : List Char) : List Char :=
  if dmem d "episode" then
    let ep := (dlookup d "episode").getD ""
    let epU := pyUpper ep
    if epU == "OVA" || epU == "SP" || epU == "SPECIAL" then subSE ep.toList out
    else out
  else out

/-- Fuelled scanner for Python str.replace. -/
def replaceAllF (needle rep : List Char) : Nat → List Char → List Char
  | 0, l => l
  | _ + 1, [] => []
  | fuel + 1, c :: rest =>
      if needle.isPrefixOf (c :: rest) ∧ !needle.isEmpty then
        rep ++ replaceAllF needle rep fuel ((c :: rest).drop needle.length)
      else c :: replaceAllF needle rep fuel rest

/-- Python str.replace: all non-overlapping occurrences, left to right,
without rescanning replacements. -/
def replaceAll (needle rep : List Char) (l : List Char) : List Char :=
  replaceAllF needle rep l.length l

/-- The cosmetic cleanup pass (rule.py lines 289-295). -/
def cleanupDashes (out : List Char) : List Char :=
  let o1 := replaceAll " - None".toList [] out
  let o2 := replaceAll " -  - ".toList " - ".toList o1
  let o3 := replaceAll " -  ".toList [] o2
  if " - ".toList.isSuffixOf o3 then o3.take (o3.length - 3) else o3

/-- Model of re.sub((S\d+E\d+)(\[), \1 \2, out): a space is inserted between
an SnnEnn token and an immediately following opening bracket (rule.py line
299). -/
def subSEBracketF : Nat → List Char → List Char
  | 0, l => l
  | _ + 1, [] => []
  | fuel + 1, c :: rest =>
      if c == 'S' ∧ !(rest.takeWhile Char.isDigit).isEmpty ∧
          ((rest.drop (rest.takeWhile Char.isDigit).length).head?.any (fun e => e == 'E')) ∧
          !(((rest.drop (rest.takeWhile Char.isDigit).length).drop 1).takeWhile
              Char.isDigit).isEmpty ∧
          (((((rest.drop (rest.takeWhile Char.isDigit).length).drop 1).dropWhile
              Char.isDigit).head?).any (fun b => b == '[')) then
        let ds := rest.takeWhile Char.isDigit
        let rest2 := (rest.drop ds.length).drop 1
        let ds2 := rest2.takeWhile Char.isDigit
        ('S' :: ds) ++ ('E' :: ds2) ++
          (' ' :: '[' :: subSEBracketF fuel ((rest2.drop ds2.length).drop 1))
      else c :: subSEBracketF fuel rest

/-- Model of re.sub((S\d+E\d+)(\[), \1 \2, out) with fuel equal to the
input length. -/
def subSEBracket (l : List Char) : List Char := subSEBracketF l.length l

/-- The fully resolved field map of generate_output: steps 1-5 of the
pipeline (rule.py lines 155-250) before template rendering. -/
def resolvedFields (r : RegexRule) (extracted : List (String × Option String))
    (file_path : String) (apply_folder_info : Bool) : List (String × String) :=
  let parent :=
    if file_path ≠ "" ∧ apply_folder_info then extract_parent_info r.cfg file_path else []
  episodeSpecial r.special
    (applyDefaultEpisode
      (applyParentInfo parent
        (applyFallback r.special
          (applyUppercase r.special (normalizeInfo extracted)))))

/-- The caught-KeyError result string of generate_output (rule.py line 312),
with the quotes Python str puts around the missing key. -/
def errString (f : String) : String :=
  "格式错误: 缺少 " ++ String.singleton quoteChar ++ f ++ String.singleton quoteChar

/-- RegexRule.generate_output (rule.py lines 152-312).  The KeyError raised
by a missing template field is caught and surfaced as the 格式错误 string;
any other exception a malformed template raises escapes the function and is
modelled as an error value. -/
def generate_output (r : RegexRule) (extracted : List (String × Option String))
    (extension : String) (file_path : String) (custom_season : Option String)
    (apply_folder_info : Bool) : Except String String :=
  let p6 := resolvedFields r extracted file_path apply_folder_info
  match renderFormat p6 r.output_format.toList with
  | .error (.missing f) => .ok (errString f)
  | .error .malformed => .error "ValueError"
  | .ok base0 =>
      let base1 := applySeason (resolveSeason r.cfg custom_season p6) base0
      let base2 := applySpecialDisplay p6 base1
      let base3 := cleanupDashes base2
      let base4 := subSEBracket base3
      if r.name = "CASO完整格式" ∧ dmem p6 "suffix" then
        .ok (String.mk base4 ++ "." ++ (dlookup p6 "suffix").getD "")
      else if r.special.isTruthy ∧ (r.special.preserve_full_extension.getD false) then
        .ok (String.mk base4 ++ "." ++ (dlookup p6 "extension").getD "")
      else .ok (String.mk base4 ++ extension)

/-- The final suffix of a file name in pathlib semantics. -/
def pySuffix (s : String) : String := String.mk (pySplitExt s.toList).2

/-- Python dict assignment on the raw (optional-valued) match result. -/
def dsetOpt (d : List (String × Option String)) (k : String) (v : String) :
    List (String × Option String) :=
  if (d.find? (fun p => p.1 == k)).isSome then
    d.map (fun p => if p.1 == k then (k, some v) else p)
  else d ++ [(k, some v)]

/-- Python repr of a match value: quoted strings and the literal None.
Values containing quotes, which Python would repr with double quotes, are
modelled with the plain single-quote form. -/
def pyRepr (v : Option String) : String :=
  match v with
  | none => "None"
  | some s => String.singleton quoteChar ++ s ++ String.singleton quoteChar

/-- Python str of the match-result dict. -/
def pyDictRepr (d : List (String × Option String)) : String :=
  "\x7b" ++
    String.intercalate ", "
      (d.map (fun p =>
        String.singleton quoteChar ++ p.1 ++ String.singleton quoteChar ++ ": " ++ pyRepr p.2)) ++
    "\x7d"

/-- MediaRenamer.match_filename_with_rule (renamer.py lines 92-133): the
compound .tc.ass extension is preserved, otherwise the final suffix is used;
the guard if match_result is Python truthiness, so a failed search and an
empty match dict both report 无匹配; a custom title replaces the series
field; generation runs with apply_folder_info false and the result is
sanitised. -/
def match_filename_with_rule (r : RegexRule) (filename : String)
    (custom_title : Option String) (file_path : Option String)
    (custom_season : Option String) : Except String (Bool × String × String) :=
  let extension :=
    if ".tc.ass".toList.isSuffixOf filename.toList then ".tc.ass" else pySuffix filename
  match r.rmatch filename with
  | none => .ok (false, filename, "无匹配")
  | some mr =>
      if mr.isEmpty then .ok (false, filename, "无匹配")
      else
      let mr2 :=
        match custom_title with
        | some ct => if ct ≠ "" then dsetOpt mr "series" ct else mr
        | none => mr
      match generate_output r mr2 extension (file_path.getD "") custom_season false with
      | .error e => .error e
      | .ok newName => .ok (true, clean_filename newName, pyDictRepr mr2)

/-- The body of match_filename_with_rule with the extension supplied
explicitly, used to state which extension the function selects. -/
def mfwrWithExt (r : RegexRule) (filename : String) (custom_title : Option String)
    (file_path : Option String) (custom_season : Option String) (extension : String) :
    Except String (Bool × String × String) :=
  match r.rmatch filename with
  | none => .ok (false, filename, "无匹配")
  | some mr =>
      if mr.isEmpty then .ok (false, filename, "无匹配")
      else
      let mr2 :=
        match custom_title with
        | some ct => if ct ≠ "" then dsetOpt mr "series" ct else mr
        | none => mr
      match generate_output r mr2 extension (file_path.getD "") custom_season false with
      | .error e => .error e
      | .ok newName => .ok (true, clean_filename newName, pyDictRepr mr2)

/-- A rule whose template references a field its groups never provide. -/
def demoFmtRule : RegexRule :=
  ⟨"格式演示", "(\\d+)",
   fun s => if s = "07" then some ⟨"07", [some "07"]⟩ else none,
   [("episode", 1)], "{series} - {episode}", shEmpty, cfgDefault⟩

/-- Concrete model of a year regex such as (19|20)\d\d under re.search. -/
def yearPat (s : String) : Bool :=
  s.toList.tails.any (fun t =>
    match t with
    | a :: b :: c :: d :: _ =>
        ((a == '1' ∧ b == '9') ∨ (a == '2' ∧ b == '0')) ∧ c.isDigit ∧ d.isDigit
    | _ => false)

/-- Movie-style special handling: a year pattern only. -/
def demoMovieSH : SpecialHandling := ⟨none, none, some yearPat, none, none, []⟩

/-- Movie-style special handling with both year pattern and max episode. -/
def demoMovieSH2 : SpecialHandling := ⟨none, none, some yearPat, some 100, none, []⟩

/-- A rule carrying the year pattern. -/
def demoMovieRule : RegexRule :=
  ⟨"电影演示", "p", fun _ => some ⟨"m", [some "Film", some "2020", some ""]⟩,
   [("series", 1), ("episode", 2), ("title", 3)],
   "{series} S01E{episode} - {title}", demoMovieSH, cfgDefault⟩

/-- A rule carrying both the year pattern and a max episode of 100. -/
def demoMovieRule2 : RegexRule :=
  ⟨"电影演示2", "p", fun _ => some ⟨"m", [some "Film", some "500", some ""]⟩,
   [("series", 1), ("episode", 2), ("title", 3)],
   "{series} S01E{episode} - {title}", demoMovieSH2, cfgDefault⟩

/-- A rule whose template carries two S-digit tokens, to probe the season
substitution. -/
def demoSeasonRule : RegexRule :=
  ⟨"季节演示", "p", fun _ => some ⟨"m", [some "A", some "05"]⟩,
   [("series", 1), ("episode", 2)],
   "{series} S01E{episode} S04", shEmpty, cfgDefault⟩

/-- Whether the text contains an occurrence of the S-digit token, i.e. a
place where re.sub of S\d+ would fire. -/
def hasSDigit (l : List Char) : Bool :=
  l.tails.any (fun t =>
    match t with
    | a :: b :: _ => a == 'S' && b.isDigit
    | _ => false)

/-- A rule matching a subtitle filename, to probe extension selection. -/
def demoSubRule : RegexRule :=
  ⟨"字幕演示", "p",
   fun s => if s = "[X] Show 05.tc.ass" then
      some ⟨"[X] Show 05", [some "Show", some "05"]⟩
    else if s = "ep.ass" then some ⟨"ep", [some "Show", some "07"]⟩
    else none,
   [("series", 1), ("episode", 2)],
   "{series} S01E{episode}", shEmpty, cfgDefault⟩

theorem collapseRun_ne_nil (p : Char → Bool) (r : Char) :
    ∀ l : List Char, l ≠ [] → collapseRun p r l ≠ []
  | [], h, _ => h rfl
  | [c], _, h => by by_cases hc : p c <;> simp [collapseRun, hc] at h
  | c :: d :: rest, _, h => by
      by_cases hcd : (p c && p d) = true
      · exact collapseRun_ne_nil p r (d :: rest) (by simp)
          (by simpa [collapseRun, hcd] using h)
      · simp [collapseRun, hcd] at h

theorem mem_collapseRun (p : Char → Bool) (r : Char) :
    ∀ l c, c ∈ collapseRun p r l → c ∈ l ∨ c = r
  | [], c, h => by simp [collapseRun] at h
  | [d], c, h => by
      by_cases hd : p d
      · simp [collapseRun, hd] at h
        exact Or.inr h
      · simp [collapseRun, hd] at h
        exact Or.inl (by simp [h])
  | c0 :: d :: rest, c, h => by
      by_cases hcd : (p c0 && p d) = true
      · rcases mem_collapseRun p r (d :: rest) c (by simpa [collapseRun, hcd] using h)
          with h1 | h1
        · exact Or.inl (List.mem_cons_of_mem _ h1)
        · exact Or.inr h1
      · rw [show collapseRun p r (c0 :: d :: rest)
            = (if p c0 then r else c0) :: collapseRun p r (d :: rest) from by
              simp [collapseRun, hcd]] at h
        rcases List.mem_cons.mp h with h1 | h1
        · by_cases hc0 : p c0
          · exact Or.inr (by simpa [hc0] using h1)
          · exact Or.inl (by simp [h1, if_neg hc0])
        · rcases mem_collapseRun p r (d :: rest) c h1 with h2 | h2
          · exact Or.inl (List.mem_cons_of_mem _ h2)
          · exact Or.inr h2

theorem collapseRun_allRep (p : Char → Bool) (r : Char) :
    ∀ l c, c ∈ collapseRun p r l → p c = true → c = r
  | [], c, h, _ => by simp [collapseRun] at h
  | [d], c, h, hp => by
      by_cases hd : p d
      · simpa [collapseRun, hd] using h
      · simp [collapseRun, hd] at h
        rw [h] at hp
        exact absurd hp (by simpa using hd)
  | c0 :: d :: rest, c, h, hp => by
      by_cases hcd : (p c0 && p d) = true
      · exact collapseRun_allRep p r (d :: rest) c (by simpa [collapseRun, hcd] using h) hp
      · rw [show collapseRun p r (c0 :: d :: rest)
            = (if p c0 then r else c0) :: collapseRun p r (d :: rest) from by
              simp [collapseRun, hcd]] at h
        rcases List.mem_cons.mp h with h1 | h1
        · by_cases hc0 : p c0
          · simpa [hc0] using h1
          · rw [h1, if_neg hc0] at hp
            exact absurd hp (by simpa using hc0)
        · exact collapseRun_allRep p r (d :: rest) c h1 hp

theorem collapseRun_head? (p : Char → Bool) (r : Char) :
    ∀ l : List Char,
      (collapseRun p r l).head? = l.head?.map (fun c => if p c then r else c)
  | [] => rfl
  | [c] => by by_cases hc : p c <;> simp [collapseRun, hc]
  | c :: d :: rest => by
      by_cases hcd : (p c && p d) = true
      · obtain ⟨hc, hd⟩ : p c = true ∧ p d = true := by simpa using hcd
        rw [show collapseRun p r (c :: d :: rest) = collapseRun p r (d :: rest) from by
          simp [collapseRun, hcd]]
        rw [collapseRun_head? p r (d :: rest)]
        simp [hc, hd]
      · rw [show collapseRun p r (c :: d :: rest)
            = (if p c then r else c) :: collapseRun p r (d :: rest) from by
              simp [collapseRun, hcd]]
        simp

theorem collapseRun_noRun (p : Char → Bool) (r : Char) :
    ∀ l : List Char, NoRun p (collapseRun p r l)
  | [] => List.chain'_nil
  | [c] => by by_cases hc : p c <;> simp [collapseRun, hc, NoRun]
  | c :: d :: rest => by
      by_cases hcd : (p c && p d) = true
      · rw [show collapseRun p r (c :: d :: rest) = collapseRun p r (d :: rest) from by
          simp [collapseRun, hcd]]
        exact collapseRun_noRun p r (d :: rest)
      · have hnot : ¬(p c = true ∧ p d = true) := by
          intro hx
          exact hcd (by simp [hx.1, hx.2])
        rw [show collapseRun p r (c :: d :: rest)
            = (if p c then r else c) :: collapseRun p r (d :: rest) from by
              simp [collapseRun, hcd]]
        rw [NoRun, List.chain'_cons']
        refine ⟨?_, collapseRun_noRun p r (d :: rest)⟩
        intro y hy
        rw [collapseRun_head? p r (d :: rest)] at hy
        simp only [List.head?_cons, Option.map_some', Option.mem_def,
          Option.some.injEq] at hy
        subst hy
        by_cases hc : p c = true
        · have hd : p d = false := by
            cases hpd : p d
            · rfl
            · exact absurd ⟨hc, hpd⟩ hnot
          simp [hc, hd]
        · simp only [Bool.not_eq_true] at hc
          simp [hc]

theorem collapseRun_eq_self (p : Char → Bool) (r : Char) :
    ∀ l : List Char, NoRun p l → (∀ c ∈ l, p c = true → c = r) →
      collapseRun p r l = l
  | [], _, _ => rfl
  | [c], _, hrep => by
      by_cases hc : p c
      · have hcr := hrep c (by simp) hc
        simp [collapseRun, hc, hcr]
      · simp [collapseRun, hc]
  | c :: d :: rest, hrun, hrep => by
      have hnot : ¬(p c = true ∧ p d = true) := (List.chain'_cons.mp hrun).1
      have hcd : ¬((p c && p d) = true) := by simpa using hnot
      have ih := collapseRun_eq_self p r (d :: rest) (List.chain'_cons'.mp hrun).2
        (fun x hx hpx => hrep x (List.mem_cons_of_mem _ hx) hpx)
      by_cases hc : p c
      · have hcr := hrep c (by simp) hc
        have hd : p d = false := by
          cases hpd : p d
          · rfl
          · exact absurd ⟨hc, hpd⟩ hnot
        simp [collapseRun, hcd, hc, hcr, ih, hd]
      · simp [collapseRun, hcd, hc, ih]

theorem collapseRun_noRun_preserve {p q : Char → Bool} {rq : Char}
    (hdisj : ∀ c, q c = true → p c = false) (hrq : p rq = false) :
    ∀ l : List Char, NoRun p l → NoRun p (collapseRun q rq l)
  | [], _ => List.chain'_nil
  | [c], _ => by by_cases hc : q c <;> simp [collapseRun, hc, NoRun]
  | c :: d :: rest, h => by
      by_cases hcd : (q c && q d) = true
      · rw [show collapseRun q rq (c :: d :: rest) = collapseRun q rq (d :: rest) from by
          simp [collapseRun, hcd]]
        exact collapseRun_noRun_preserve hdisj hrq (d :: rest) (List.chain'_cons'.mp h).2
      · rw [show collapseRun q rq (c :: d :: rest)
            = (if q c then rq else c) :: collapseRun q rq (d :: rest) from by
              simp [collapseRun, hcd]]
        rw [NoRun, List.chain'_cons']
        refine ⟨?_, collapseRun_noRun_preserve hdisj hrq (d :: rest)
          (List.chain'_cons'.mp h).2⟩
        intro y hy
        rw [collapseRun_head? q rq (d :: rest)] at hy
        simp only [List.head?_cons, Option.map_some', Option.mem_def,
          Option.some.injEq] at hy
        subst hy
        by_cases hqc : q c = true
        · simp [hqc, hrq]
        · by_cases hqd : q d = true
          · simp [hqc, hqd, hrq]
          · have hcd2 := (List.chain'_cons.mp h).1
            simp only [Bool.not_eq_true] at hqc hqd
            simpa [hqc, hqd] using hcd2

theorem dropWhile_head_false (p : Char → Bool) :
    ∀ (l : List Char) (c : Char), (l.dropWhile p).head? = some c → p c = false
  | [], c, h => by simp [List.dropWhile] at h
  | a :: as, c, h => by
      by_cases ha : p a
      · simp only [List.dropWhile, ha, if_true] at h
        exact dropWhile_head_false p as c h
      · simp only [List.dropWhile, ha, if_false] at h
        simp only [Bool.not_eq_true] at ha
        simp only [List.head?_cons, Option.some.injEq] at h
        rw [← h]
        exact ha

theorem pyStrip_infix (p : Char → Bool) (l : List Char) : pyStrip p l <:+: l :=
  (List.rdropWhile_prefix p (l.dropWhile p)).isInfix.trans
    (List.dropWhile_suffix p).isInfix

theorem pyStrip_head (p : Char → Bool) (l : List Char) :
    ∀ c, (pyStrip p l).head? = some c → p c = false := by
  intro c hc
  obtain ⟨t, ht⟩ := List.rdropWhile_prefix p (l.dropWhile p)
  apply dropWhile_head_false p l c
  rw [← ht]
  cases hps : pyStrip p l with
  | nil => rw [hps] at hc; simp at hc
  | cons a as =>
      rw [hps] at hc
      simp only [List.head?_cons, Option.some.injEq] at hc
      rw [show pyStrip p l = List.rdropWhile p (l.dropWhile p) from rfl] at hps
      rw [hps, List.cons_append]
      simp [hc]

theorem pyStrip_last (p : Char → Bool) (l : List Char) :
    ∀ c, (pyStrip p l).getLast? = some c → p c = false := by
  intro c hc
  have hne : pyStrip p l ≠ [] := by
    intro h
    rw [h] at hc
    simp at hc
  have hlast := List.rdropWhile_last_not p (l.dropWhile p) hne
  rw [List.getLast?_eq_getLast _ hne] at hc
  simp only [Option.some.injEq] at hc
  rw [← hc]
  simpa using hlast

theorem sanChar_some_not_illegal {a c : Char} (h : sanChar a = some c) :
    isIllegal c = false := by
  unfold sanChar at h
  split_ifs at h with h1 h2 h3
  · simp only [Option.some.injEq] at h
    subst h
    decide
  · simp only [Option.some.injEq] at h
    subst h
    decide
  · simp only [Option.some.injEq] at h
    subst h
    cases hIa : isIllegal a with
    | false => rfl
    | true =>
        exfalso
        have hIa2 : a = '<' ∨ a = '>' ∨ a = ':' ∨ a = '\"' ∨ a = '/' ∨ a = '\\' ∨
            a = '|' ∨ a = '?' ∨ a = '*' := by
          simpa [isIllegal, or_assoc] using hIa
        rcases hIa2 with h' | h' | h' | h' | h' | h' | h' | h' | h' <;> subst h'
        · exact h1 (by decide)
        · exact h1 (by decide)
        · exact h2 (by decide)
        · exact h3 (by decide)
        · exact h2 (by decide)
        · exact h2 (by decide)
        · exact h1 (by decide)
        · exact h1 (by decide)
        · exact h1 (by decide)

theorem sanitizeChars_no_illegal (l : List Char) :
    ∀ c ∈ sanitizeChars l, isIllegal c = false := by
  intro c hc
  rw [sanitizeChars, List.mem_filterMap] at hc
  obtain ⟨a, _, ha⟩ := hc
  exact sanChar_some_not_illegal ha

theorem sanChar_id {a : Char} (h : isIllegal a = false) : sanChar a = some a := by
  unfold sanChar
  split_ifs with h1 h2 h3
  · exfalso
    have h1' : a = '<' ∨ a = '>' ∨ a = '|' ∨ a = '?' ∨ a = '*' := by
      simpa [or_assoc] using h1
    rcases h1' with h' | h' | h' | h' | h' <;> subst h' <;> exact absurd h (by decide)
  · exfalso
    have h2' : a = ':' ∨ a = '/' ∨ a = '\\' := by simpa [or_assoc] using h2
    rcases h2' with h' | h' | h' <;> subst h' <;> exact absurd h (by decide)
  · exfalso
    have h' : a = '\"' := by simpa using h3
    subst h'
    exact absurd h (by decide)
  · rfl

theorem sanitizeChars_eq_self (l : List Char) (h : ∀ c ∈ l, isIllegal c = false) :
    sanitizeChars l = l := by
  induction l with
  | nil => rfl
  | cons a as ih =>
      have ha := sanChar_id (h a (by simp))
      have has := ih (fun c hc => h c (by simp [hc]))
      rw [sanitizeChars, List.filterMap_cons, ha]
      rw [show List.filterMap sanChar as = sanitizeChars as from rfl, has]

theorem pyStrip_eq_self (p : Char → Bool) (l : List Char)
    (hhead : ∀ c, l.head? = some c → p c = false)
    (hlast : ∀ c, l.getLast? = some c → p c = false) : pyStrip p l = l := by
  have h1 : l.dropWhile p = l := by
    cases l with
    | nil => rfl
    | cons a as =>
        have := hhead a rfl
        simp [List.dropWhile, this]
  rw [pyStrip, h1, List.rdropWhile_eq_self_iff]
  intro hl
  have h2 := hlast (l.getLast hl) (by rw [List.getLast?_eq_getLast _ hl])
  simp [h2]

theorem reserved_head_ne_underscore : ∀ n ∈ reservedNames, n.head? ≠ some '_' := by
  decide

theorem pySplitExt_fst_shape (l : List Char) :
    (pySplitExt l).1 = l ∨ ∃ i, 0 < i ∧ (pySplitExt l).1 = l.take i := by
  unfold pySplitExt
  split
  · rename_i i _
    split_ifs with hi
    · exact Or.inr ⟨i, hi.1, rfl⟩
    · exact Or.inl rfl
  · exact Or.inl rfl

theorem pySplitExt_fst_head (a : Char) (t : List Char) :
    ((pySplitExt (a :: t)).1).head? = some a := by
  rcases pySplitExt_fst_shape (a :: t) with h | ⟨i, hi, h⟩
  · rw [h]; rfl
  · rw [h]
    cases i with
    | zero => omega
    | succ j => simp

theorem isReservedStem_underscore (t : List Char) :
    isReservedStem ('_' :: t) = false := by
  rw [isReservedStem, decide_eq_false_iff_not]
  intro hmem
  have hh := pySplitExt_fst_head '_' t
  cases hstem : (pySplitExt ('_' :: t)).1 with
  | nil => rw [hstem] at hh; simp at hh
  | cons b bs =>
      rw [hstem] at hh
      simp only [List.head?_cons, Option.some.injEq] at hh
      subst hh
      rw [hstem] at hmem
      apply reserved_head_ne_underscore _ hmem
      have hup : Char.toUpper '_' = '_' := by decide
      simp [hup]

theorem getLast?_cons_ne_nil {a : Char} {s : List Char} (h : s ≠ []) :
    (a :: s).getLast? = s.getLast? := by
  cases s with
  | nil => exact absurd rfl h
  | cons b bs => exact List.getLast?_cons_cons

theorem isDot_not_ws {c : Char} (h : isDot c = true) : isWs c = false := by
  have hc : c = '.' := by simpa [isDot] using h
  subst hc; decide

theorem isDash_not_ws {c : Char} (h : isDash c = true) : isWs c = false := by
  have hc : c = '-' := by simpa [isDash] using h
  subst hc; decide

theorem isDash_not_dot {c : Char} (h : isDash c = true) : isDot c = false := by
  have hc : c = '-' := by simpa [isDash] using h
  subst hc; decide

theorem preStrip_noIllegal (l : List Char) :
    ∀ c ∈ preStrip l, isIllegal c = false := by
  intro c hc
  simp only [preStrip] at hc
  rcases mem_collapseRun _ _ _ c hc with h1 | h1
  · rcases mem_collapseRun _ _ _ c h1 with h2 | h2
    · rcases mem_collapseRun _ _ _ c h2 with h3 | h3
      · exact sanitizeChars_no_illegal l c h3
      · rw [h3]; decide
    · rw [h2]; decide
  · rw [h1]; decide

theorem preStrip_wsRep (l : List Char) :
    ∀ c ∈ preStrip l, isWs c = true → c = ' ' := by
  intro c hc hw
  simp only [preStrip] at hc
  rcases mem_collapseRun _ _ _ c hc with h1 | h1
  · rcases mem_collapseRun _ _ _ c h1 with h2 | h2
    · exact collapseRun_allRep _ _ _ c h2 hw
    · rw [h2] at hw; exact absurd hw (by decide)
  · rw [h1] at hw; exact absurd hw (by decide)

theorem preStrip_wsRun (l : List Char) : NoRun isWs (preStrip l) := by
  simp only [preStrip]
  exact collapseRun_noRun_preserve (fun c h => isDash_not_ws h) (by decide) _
    (collapseRun_noRun_preserve (fun c h => isDot_not_ws h) (by decide) _
      (collapseRun_noRun _ _ _))

theorem preStrip_dotRun (l : List Char) : NoRun isDot (preStrip l) := by
  simp only [preStrip]
  exact collapseRun_noRun_preserve (fun c h => isDash_not_dot h) (by decide) _
    (collapseRun_noRun _ _ _)

theorem preStrip_dashRun (l : List Char) : NoRun isDash (preStrip l) := by
  simp only [preStrip]
  exact collapseRun_noRun _ _ _

theorem stripped_infix_pre (l : List Char) : stripped l <:+: preStrip l :=
  pyStrip_infix _ _

theorem placed_cases (l : List Char) :
    placed l = "unnamed".toList ∨ placed l = stripped l := by
  rw [placed]
  split_ifs <;> [exact Or.inl rfl; exact Or.inr rfl]

theorem placed_nonempty (l : List Char) : placed l ≠ [] := by
  rw [placed]
  split_ifs with h
  · decide
  · intro hx
    rw [hx] at h
    simp at h

theorem placed_noIllegal (l : List Char) :
    ∀ c ∈ placed l, isIllegal c = false := by
  intro c hc
  rcases placed_cases l with h | h
  · rw [h] at hc
    revert hc
    revert c
    decide
  · rw [h] at hc
    exact preStrip_noIllegal l c ((stripped_infix_pre l).subset hc)

theorem placed_wsRep (l : List Char) :
    ∀ c ∈ placed l, isWs c = true → c = ' ' := by
  intro c hc
  rcases placed_cases l with h | h
  · rw [h] at hc
    revert hc
    revert c
    decide
  · rw [h] at hc
    exact preStrip_wsRep l c ((stripped_infix_pre l).subset hc)

theorem unnamed_toList : ("unnamed".toList : List Char) = ['u', 'n', 'n', 'a', 'm', 'e', 'd'] := by
  decide

theorem placed_wsRun (l : List Char) : NoRun isWs (placed l) := by
  rcases placed_cases l with h | h <;> rw [h]
  · rw [unnamed_toList, NoRun]
    simp only [List.chain'_cons, List.chain'_singleton, and_true]
    decide
  · exact List.Chain'.infix (preStrip_wsRun l) (stripped_infix_pre l)

theorem placed_dotRun (l : List Char) : NoRun isDot (placed l) := by
  rcases placed_cases l with h | h <;> rw [h]
  · rw [unnamed_toList, NoRun]
    simp only [List.chain'_cons, List.chain'_singleton, and_true]
    decide
  · exact List.Chain'.infix (preStrip_dotRun l) (stripped_infix_pre l)

theorem placed_dashRun (l : List Char) : NoRun isDash (placed l) := by
  rcases placed_cases l with h | h <;> rw [h]
  · rw [unnamed_toList, NoRun]
    simp only [List.chain'_cons, List.chain'_singleton, and_true]
    decide
  · exact List.Chain'.infix (preStrip_dashRun l) (stripped_infix_pre l)

theorem placed_headOk (l : List Char) :
    ∀ c, (placed l).head? = some c → isStripChar c = false := by
  intro c hc
  rcases placed_cases l with h | h
  · rw [h] at hc
    simp only [show ("unnamed".toList : List Char) = 'u' :: "nnamed".toList from rfl,
      List.head?_cons, Option.some.injEq] at hc
    subst hc
    decide
  · rw [h] at hc
    exact pyStrip_head _ _ c hc

theorem placed_lastOk (l : List Char) :
    ∀ c, (placed l).getLast? = some c → isStripChar c = false := by
  intro c hc
  rcases placed_cases l with h | h
  · rw [h] at hc
    have : ("unnamed".toList : List Char).getLast? = some 'd' := by decide
    rw [this] at hc
    simp only [Option.some.injEq] at hc
    subst hc
    decide
  · rw [h] at hc
    exact pyStrip_last _ _ c hc

theorem cleanCore_inv (l : List Char) : CleanInv (cleanCore l) := by
  rw [cleanCore]
  split_ifs with hres
  · refine ⟨by simp, ?_, ?_, ?_, ?_, ?_, ?_, ?_, isReservedStem_underscore _⟩
    · intro c hc
      rcases List.mem_cons.mp hc with h | h
      · rw [h]; decide
      · exact placed_noIllegal l c h
    · intro c hc hw
      rcases List.mem_cons.mp hc with h | h
      · rw [h] at hw; exact absurd hw (by decide)
      · exact placed_wsRep l c h hw
    · rw [NoRun, List.chain'_cons']
      refine ⟨fun y _ => ?_, placed_wsRun l⟩
      intro hx
      exact absurd hx.1 (by decide)
    · rw [NoRun, List.chain'_cons']
      refine ⟨fun y _ => ?_, placed_dotRun l⟩
      intro hx
      exact absurd hx.1 (by decide)
    · rw [NoRun, List.chain'_cons']
      refine ⟨fun y _ => ?_, placed_dashRun l⟩
      intro hx
      exact absurd hx.1 (by decide)
    · intro c hc
      simp only [List.head?_cons, Option.some.injEq] at hc
      subst hc
      decide
    · intro c hc
      rw [getLast?_cons_ne_nil (placed_nonempty l)] at hc
      exact placed_lastOk l c hc
  · exact ⟨placed_nonempty l, placed_noIllegal l, placed_wsRep l, placed_wsRun l,
      placed_dotRun l, placed_dashRun l, placed_headOk l, placed_lastOk l,
      by simpa using hres⟩

theorem cleanCore_of_inv {l : List Char} (h : CleanInv l) : cleanCore l = l := by
  have h1 : sanitizeChars l = l := sanitizeChars_eq_self l h.noIllegal
  have h2 : collapseRun isWs ' ' l = l := collapseRun_eq_self _ _ l h.wsRun h.wsRep
  have h3 : collapseRun isDot '.' l = l := collapseRun_eq_self _ _ l h.dotRun
    (fun c _ hc => by simpa [isDot] using hc)
  have h4 : collapseRun isDash '-' l = l := collapseRun_eq_self _ _ l h.dashRun
    (fun c _ hc => by simpa [isDash] using hc)
  have h5 : pyStrip isStripChar l = l := pyStrip_eq_self _ l h.headOk h.lastOk
  have hpre : preStrip l = l := by rw [preStrip, h1, h2, h3, h4]
  have hstr : stripped l = l := by rw [stripped, hpre, h5]
  have hpl : placed l = l := by
    rw [placed, hstr, if_neg]
    intro hx
    rw [List.isEmpty_iff] at hx
    exact h.nonempty hx
  rw [cleanCore, hpl, if_neg]
  intro hx
  rw [h.notReserved] at hx
  exact Bool.false_ne_true hx

theorem cleanCore_idem (l : List Char) : cleanCore (cleanCore l) = cleanCore l :=
  cleanCore_of_inv (cleanCore_inv l)

theorem cleanCore_ne_nil (l : List Char) : cleanCore l ≠ [] :=
  (cleanCore_inv l).nonempty

theorem pySplitExt_snd_shape (l : List Char) :
    (pySplitExt l).2 = [] ∨ ∃ i, (pySplitExt l).2 = l.drop i := by
  unfold pySplitExt
  split
  · rename_i i _
    split_ifs with hi
    · exact Or.inr ⟨i, rfl⟩
    · exact Or.inl rfl
  · exact Or.inl rfl

theorem mem_truncate200 {z : List Char} {c : Char} (h : c ∈ truncate200 z) : c ∈ z := by
  rw [truncate200] at h
  rcases List.mem_append.mp h with h1 | h1
  · have h2 : c ∈ (pySplitExt z).1 := by
      rw [pySliceTo] at h1
      split_ifs at h1 <;> exact List.mem_of_mem_take h1
    rcases pySplitExt_fst_shape z with hh | ⟨i, _, hh⟩
    · rwa [hh] at h2
    · rw [hh] at h2
      exact List.mem_of_mem_take h2
  · rcases pySplitExt_snd_shape z with hh | ⟨i, hh⟩
    · rw [hh] at h1
      simp at h1
    · rw [hh] at h1
      exact List.mem_of_mem_drop h1

theorem clean_filename_toList_subset_cleanCore {s : String} (hs : s ≠ "") :
    ∀ c ∈ (clean_filename s).toList, c ∈ cleanCore s.toList := by
  intro c hc
  rw [clean_filename, if_neg hs] at hc
  simp only at hc
  split_ifs at hc with hlen
  · exact mem_truncate200 hc
  · exact hc

/-- C1 counterexample: on the 210-character input consisting of 199 letters
a, one space and 10 letters b, the sanitizer truncates to 200 characters
ending in a space, and a second application strips that space, so the
sanitizer is not idempotent. -/
theorem c1_counterexample :
    clean_filename (clean_filename
        (String.mk (List.replicate 199 'a' ++ ' ' :: List.replicate 10 'b')))
      ≠ clean_filename (String.mk (List.replicate 199 'a' ++ ' ' :: List.replicate 10 'b')) := by
  decide

/-- C1 (amended): the filename sanitizer is idempotent on every input whose
cleaned form, before the final length-truncation step, is at most 200
characters long, i.e. whenever the truncation step does not fire. -/
theorem c1_sanitizer_idempotent (s : String)
    (h : (cleanCore s.toList).length ≤ 200) :
    clean_filename (clean_filename s) = clean_filename s := by
  by_cases hs : s = ""
  · subst hs
    rfl
  · have hnlt : ¬ 200 < (cleanCore s.toList).length := by omega
    have h1 : clean_filename s = String.mk (cleanCore s.toList) := by
      rw [clean_filename, if_neg hs]
      simp only [if_neg hnlt]
    rw [h1]
    have hzne : cleanCore s.toList ≠ [] := cleanCore_ne_nil _
    have hmkne : String.mk (cleanCore s.toList) ≠ "" := by
      intro hx
      exact hzne (by simpa using congrArg String.toList hx)
    have htl : (String.mk (cleanCore s.toList)).toList = cleanCore s.toList := rfl
    rw [clean_filename, if_neg hmkne, htl, cleanCore_idem]
    simp only [if_neg hnlt]

theorem c1_sanitizer_idempotent_witness :
    (cleanCore ("My Video: 01.mkv").toList).length ≤ 200 ∧
      clean_filename (clean_filename "My Video: 01.mkv")
        = clean_filename "My Video: 01.mkv" :=
  ⟨by decide, c1_sanitizer_idempotent "My Video: 01.mkv" (by decide)⟩

/-- C7 counterexample: the length-truncation step runs after the
reserved-name guard and can cut the stem back to a reserved device name:
on the 201-character input CONX. followed by 196 letters a, the truncated
output has stem CON. -/
theorem c7_counterexample :
    isReservedStem
        (clean_filename (String.mk ("CONX.".toList ++ List.replicate 196 'a'))).toList
      = true := by
  decide

/-- C7 (amended): for every input the sanitizer output is free of the nine
illegal characters, and an input whose cleanup pipeline strips to nothing
produces the literal placeholder unnamed; the reserved-device-stem guarantee
holds whenever the pre-truncation cleaned form is at most 200 characters
(the truncation step can otherwise re-create a reserved stem). -/
theorem c7_sanitizer_output_legal (s : String) :
    (∀ c ∈ (clean_filename s).toList, isIllegal c = false)
    ∧ (s ≠ "" → stripped s.toList = [] → clean_filename s = "unnamed")
    ∧ ((cleanCore s.toList).length ≤ 200 →
        isReservedStem (clean_filename s).toList = false) := by
  refine ⟨?_, ?_, ?_⟩
  · intro c hc
    by_cases hs : s = ""
    · subst hs
      simp [clean_filename] at hc
    · exact (cleanCore_inv s.toList).noIllegal c
        (clean_filename_toList_subset_cleanCore hs c hc)
  · intro hs hstr
    rw [clean_filename, if_neg hs]
    have hplaced : placed s.toList = "unnamed".toList := by
      rw [placed, hstr]
      rfl
    have hres : isReservedStem ("unnamed".toList) = false := by decide
    have hcc : cleanCore s.toList = "unnamed".toList := by
      rw [cleanCore, hplaced, hres]
      simp
    simp only [hcc]
    rw [if_neg (by decide : ¬ 200 < ("unnamed".toList : List Char).length)]
    decide
  · intro h
    by_cases hs : s = ""
    · subst hs
      decide
    · have hnlt : ¬ 200 < (cleanCore s.toList).length := by omega
      rw [clean_filename, if_neg hs]
      simp only [if_neg hnlt]
      exact (cleanCore_inv s.toList).notReserved

theorem c7_sanitizer_output_legal_witness :
    (∀ c ∈ (clean_filename "???").toList, isIllegal c = false)
    ∧ clean_filename "???" = "unnamed"
    ∧ isReservedStem (clean_filename "???").toList = false :=
  ⟨(c7_sanitizer_output_legal "???").1,
   (c7_sanitizer_output_legal "???").2.1 (by decide) (by decide),
   (c7_sanitizer_output_legal "???").2.2 (by decide)⟩

theorem lookupWeight_ge_one (nm : String) : 1 ≤ lookupWeight nm := by
  rw [lookupWeight]
  cases hf : rule_weights.find? (fun p => p.1 == nm) with
  | none => norm_num
  | some p =>
      have hmem : p ∈ rule_weights := List.mem_of_find?_eq_some hf
      have hall : ∀ q ∈ rule_weights, 1 ≤ q.2 := by decide
      simpa using hall p hmem

theorem myIteNonneg {c : Prop} [Decidable c] {a b : ℚ} (ha : 0 ≤ a) (hb : 0 ≤ b) :
    0 ≤ if c then a else b := by
  split_ifs <;> assumption

theorem myAddIteNonneg {c d : Prop} [Decidable c] [Decidable d] {a b a2 b2 : ℚ}
    (ha : 0 ≤ a) (hb : 0 ≤ b) (ha2 : 0 ≤ a2) (hb2 : 0 ≤ b2) :
    0 ≤ (if c then a else b) + (if d then a2 else b2) :=
  add_nonneg (myIteNonneg ha hb) (myIteNonneg ha2 hb2)

theorem pyMin_le_right (a b : ℚ) : pyMin a b ≤ b := by
  rw [pyMin]
  split_ifs with h
  · exact h
  · exact le_rfl

theorem pyMin_nonneg {a b : ℚ} (ha : 0 ≤ a) (hb : 0 ≤ b) : 0 ≤ pyMin a b := by
  rw [pyMin]
  split_ifs <;> assumption

theorem analyzeBonus_nonneg (nm : String) (f : List Char) : 0 ≤ analyzeBonus nm f := by
  rw [analyzeBonus]
  refine myIteNonneg (myIteNonneg (by norm_num) (myIteNonneg (by norm_num) le_rfl))
    (myIteNonneg (myAddIteNonneg (by norm_num) le_rfl (by norm_num) le_rfl)
      (myIteNonneg (myIteNonneg (by norm_num) le_rfl)
        (myIteNonneg (myIteNonneg (by norm_num) le_rfl)
          (myIteNonneg (myIteNonneg (by norm_num) le_rfl)
            (myIteNonneg (myAddIteNonneg (by norm_num) le_rfl (by norm_num) le_rfl)
              (myIteNonneg (myAddIteNonneg (by norm_num) le_rfl (by norm_num) le_rfl)
                (myIteNonneg (myIteNonneg (by norm_num) le_rfl)
                  (myIteNonneg (by norm_num) le_rfl))))))))

/-- C2: if a rule does not match a filename its score is exactly 0, and the
score always lies in the interval from 0 to 100 (clamped at 100). -/
theorem c2_calculate_rule_score_range (r : RegexRule) (f : String) :
    (r.rmatch f = none → calculate_rule_score r f = 0)
    ∧ 0 ≤ calculate_rule_score r f ∧ calculate_rule_score r f ≤ 100 := by
  have hbase := lookupWeight_ge_one r.name
  have hbonus := analyzeBonus_nonneg r.name f.toList
  cases hm : r.rmatch f with
  | none =>
      refine ⟨fun _ => ?_, ?_, ?_⟩ <;> simp [calculate_rule_score, hm]
  | some mr =>
      refine ⟨fun hx => Option.noConfusion hx, ?_, ?_⟩
      · simp only [calculate_rule_score, hm]
        by_cases hemp : mr.isEmpty = true
        · rw [if_pos hemp]
        · rw [if_neg hemp]
          refine pyMin_nonneg ?_ (by norm_num)
          split_ifs with hg
          · have hm0 : (0 : ℚ) ≤ ((mr.filter (fun p => truthyStripped p.2)).length : ℚ) := by
              positivity
            have ht0 : (0 : ℚ) ≤ ((r.groups.length : ℚ)) := by positivity
            have hdiv : (0 : ℚ) ≤
                ((mr.filter (fun p => truthyStripped p.2)).length : ℚ)
                  / ((r.groups.length : ℚ)) * 10 := by positivity
            linarith
          · linarith
      · simp only [calculate_rule_score, hm]
        by_cases hemp : mr.isEmpty = true
        · rw [if_pos hemp]
          norm_num
        · rw [if_neg hemp]
          exact pyMin_le_right _ _

theorem c2_calculate_rule_score_range_witness :
    demoNoMatch.rmatch "abc.mkv" = none
    ∧ calculate_rule_score demoNoMatch "abc.mkv" = 0 :=
  ⟨rfl, (c2_calculate_rule_score_range demoNoMatch "abc.mkv").1 rfl⟩

/-- C4 counterexample: with the pattern (a)(b)? on input a, the second
declared group exists in the pattern (so its index does not exceed the
group count) but does not participate in the match; Python match.group then
returns None, so the match result carries a null value, not an empty
string. -/
theorem c4_counterexample :
    c4Rule.rmatch "a" = some [("x", some "a"), ("y", (none : Option String))]
    ∧ ("y", (none : Option String)) ∈ (c4Rule.rmatch "a").getD [] := by
  constructor
  · rfl
  · decide

/-- C4 (amended): match returns none exactly when the compiled pattern's
search fails, and every declared field whose 1-based index exceeds the
number of capture groups of the pattern is set to the empty string; a field
whose group exists but did not participate in the match is however null
(Python None), which downstream generation later normalises to the empty
string. -/
theorem c4_match_fields (r : RegexRule) (f : String) :
    ((r.rmatch f = none) ↔ r.search f = none)
    ∧ (∀ m, r.search f = some m → ∀ g ∈ r.groups, m.groups.length < g.2 →
        (g.1, (some "" : Option String)) ∈ (r.rmatch f).getD []) := by
  constructor
  · cases hs : r.search f with
    | none => simp [RegexRule.rmatch, hs]
    | some m => simp [RegexRule.rmatch, hs]
  · intro m hs g hg hlen
    simp only [RegexRule.rmatch, hs, Option.getD_some]
    apply List.mem_map.mpr
    refine ⟨g, hg, ?_⟩
    rw [if_neg (by omega)]

theorem c4_match_fields_witness :
    (c4RuleB.rmatch "nope" = none ↔ c4RuleB.search "nope" = none)
    ∧ ("z", (some "" : Option String)) ∈ (c4RuleB.rmatch "a").getD [] :=
  ⟨(c4_match_fields c4RuleB "nope").1,
   (c4_match_fields c4RuleB "a").2 ⟨"a", [some "a", none]⟩ rfl ("z", 3) (by decide)
     (by decide)⟩

theorem find_best_rule_eq_foldl (f : String) (rules : List RegexRule) :
    find_best_rule f rules = rules.foldl (fbStep f) (none, 0, []) := by
  cases rules with
  | nil => rfl
  | cons a as => rfl

theorem foldl_fbStep_zero (f : String) :
    ∀ rules : List RegexRule, (∀ r ∈ rules, calculate_rule_score r f = 0) →
      rules.foldl (fbStep f) (none, 0, []) = (none, 0, [])
  | [], _ => rfl
  | a :: as, hall => by
      rw [List.foldl_cons]
      have hstep : fbStep f (none, 0, []) a = (none, 0, []) := by
        rw [fbStep]
        simp [hall a (by simp)]
      rw [hstep]
      exact foldl_fbStep_zero f as (fun r hr => hall r (by simp [hr]))

/-- C6: find_best_rule returns none, score 0 and an empty map on an empty
rule list and whenever every rule scores 0; a rule whose successful match
produces an empty dict scores 0 by Python truthiness, so such rules never
score above 0; the scan compares with strict greater-than, so appending a
rule whose score does not exceed the current best score leaves the result
unchanged (on ties the earlier rule wins). -/
theorem c6_find_best_rule_contract (f : String) :
    find_best_rule f [] = (none, 0, [])
    ∧ (∀ rules : List RegexRule, (∀ r ∈ rules, calculate_rule_score r f = 0) →
        find_best_rule f rules = (none, 0, []))
    ∧ (∀ (r : RegexRule) (mr : List (String × Option String)),
        r.rmatch f = some mr → mr.isEmpty = true → calculate_rule_score r f = 0)
    ∧ (∀ (rules : List RegexRule) (r : RegexRule),
        calculate_rule_score r f ≤ (find_best_rule f rules).2.1 →
        find_best_rule f (rules ++ [r]) = find_best_rule f rules) := by
  refine ⟨rfl, ?_, ?_, ?_⟩
  · intro rules hall
    rw [find_best_rule_eq_foldl]
    exact foldl_fbStep_zero f rules hall
  · intro r mr hm hemp
    simp only [calculate_rule_score, hm]
    rw [if_pos hemp]
  · intro rules r hle
    rw [find_best_rule_eq_foldl] at hle
    rw [find_best_rule_eq_foldl, find_best_rule_eq_foldl, List.foldl_append,
      List.foldl_cons, List.foldl_nil]
    simp only [fbStep]
    rw [if_neg (not_lt.mpr hle)]

theorem analyzeBonus_plain {nm : String}
    (h1 : strContains "带季数剧集格式".toList nm.toList = false)
    (h2 : strContains "日式剧集格式".toList nm.toList = false)
    (h3 : strContains "日式OPED格式".toList nm.toList = false)
    (h4 : strContains "日式OVA格式".toList nm.toList = false)
    (h5 : strContains "日式菜单格式".toList nm.toList = false)
    (h6 : strContains "标准剧集格式".toList nm.toList = false)
    (h7 : strContains "电影格式".toList nm.toList = false)
    (h8 : strContains "纪录片格式".toList nm.toList = false)
    (h9 : strContains "简单数字格式".toList nm.toList = false)
    (f : List Char) : analyzeBonus nm f = 0 := by
  rw [analyzeBonus]
  simp only [h1, h2, h3, h4, h5, h6, h7, h8, h9, Bool.false_eq_true, if_false]

theorem scoreDemoA : calculate_rule_score demoA "测试.mkv" = 15 := by
  have hm : demoA.rmatch "测试.mkv" = some [("x", some "v")] := by decide
  have hf : rule_weights.find? (fun p => p.1 == "规则甲") = none := by decide
  have hw : lookupWeight "规则甲" = 5 := by
    rw [lookupWeight, hf]
    rfl
  have hb := @analyzeBonus_plain "规则甲" (by decide) (by decide) (by decide)
    (by decide) (by decide) (by decide) (by decide) (by decide) (by decide)
    "测试.mkv".toList
  have hfl : ([("x", (some "v" : Option String))].filter
      (fun p => truthyStripped p.2)).length = 1 := by decide
  simp only [calculate_rule_score, hm, show demoA.name = "规则甲" from rfl,
    show demoA.groups = [("x", 1)] from rfl, hw, hb, hfl, List.isEmpty_cons]
  norm_num [pyMin]

theorem scoreDemoB : calculate_rule_score demoB "测试.mkv" = 15 := by
  have hm : demoB.rmatch "测试.mkv" = some [("x", some "v")] := by decide
  have hf : rule_weights.find? (fun p => p.1 == "规则乙") = none := by decide
  have hw : lookupWeight "规则乙" = 5 := by
    rw [lookupWeight, hf]
    rfl
  have hb := @analyzeBonus_plain "规则乙" (by decide) (by decide) (by decide)
    (by decide) (by decide) (by decide) (by decide) (by decide) (by decide)
    "测试.mkv".toList
  have hfl : ([("x", (some "v" : Option String))].filter
      (fun p => truthyStripped p.2)).length = 1 := by decide
  simp only [calculate_rule_score, hm, show demoB.name = "规则乙" from rfl,
    show demoB.groups = [("x", 1)] from rfl, hw, hb, hfl, List.isEmpty_cons]
  norm_num [pyMin]

theorem findBestDemoA : find_best_rule "测试.mkv" [demoA]
    = (some demoA, 15, [("x", some "v")]) := by
  have hmA : demoA.rmatch "测试.mkv" = some [("x", some "v")] := by decide
  rw [find_best_rule_eq_foldl, List.foldl_cons, List.foldl_nil]
  simp only [fbStep, scoreDemoA, hmA]
  norm_num

theorem c6_find_best_rule_contract_witness :
    (∀ r ∈ [demoNoMatch], calculate_rule_score r "测试.mkv" = 0)
    ∧ find_best_rule "测试.mkv" [demoNoMatch] = (none, 0, [])
    ∧ demoEmpty.rmatch "测试.mkv" = some []
    ∧ calculate_rule_score demoEmpty "测试.mkv" = 0
    ∧ calculate_rule_score demoB "测试.mkv" ≤ (find_best_rule "测试.mkv" [demoA]).2.1
    ∧ find_best_rule "测试.mkv" ([demoA] ++ [demoB]) = find_best_rule "测试.mkv" [demoA] := by
  have h1 : ∀ r ∈ [demoNoMatch], calculate_rule_score r "测试.mkv" = 0 := by
    intro r hr
    simp only [List.mem_singleton] at hr
    subst hr
    decide
  have h3 : calculate_rule_score demoB "测试.mkv"
      ≤ (find_best_rule "测试.mkv" [demoA]).2.1 := by
    rw [scoreDemoB, findBestDemoA]
  exact ⟨h1, (c6_find_best_rule_contract "测试.mkv").2.1 [demoNoMatch] h1, by decide,
    (c6_find_best_rule_contract "测试.mkv").2.2.1 demoEmpty [] (by decide) (by decide),
    h3, (c6_find_best_rule_contract "测试.mkv").2.2.2 [demoA] demoB h3⟩

theorem findSome?_append_none {α β : Type} (f : α → Option β) :
    ∀ (l1 l2 : List α), (∀ x ∈ l1, f x = none) →
      (l1 ++ l2).findSome? f = l2.findSome? f
  | [], _, _ => rfl
  | a :: as, l2, h => by
      rw [List.cons_append]
      rw [show (a :: (as ++ l2)).findSome? f = match f a with
        | some b => some b
        | none => (as ++ l2).findSome? f from rfl]
      rw [h a (by simp)]
      exact findSome?_append_none f as l2 (fun x hx => h x (by simp [hx]))

theorem findSome?_none {α β : Type} (f : α → Option β) :
    ∀ l : List α, (∀ x ∈ l, f x = none) → l.findSome? f = none
  | [], _ => rfl
  | a :: as, h => by
      rw [show (a :: as).findSome? f = match f a with
        | some b => some b
        | none => as.findSome? f from rfl]
      rw [h a (by simp)]
      exact findSome?_none f as (fun x hx => h x (by simp [hx]))

theorem seasonScan_rightmost (pats : List (List Char → Option (List Char)))
    (pre post : List (List Char)) (p ds : List Char)
    (hpost : ∀ x ∈ post, firstPatternCapture pats x = none)
    (hp : firstPatternCapture pats p = some ds) :
    seasonScan pats (pre ++ p :: post) = some (zfill 2 ds) := by
  rw [seasonScan, List.reverse_append, List.reverse_cons, List.append_assoc]
  rw [findSome?_append_none _ post.reverse _ (fun x hx => by
    rw [List.mem_reverse] at hx
    rw [hpost x hx]
    rfl)]
  rw [List.singleton_append]
  rw [List.findSome?_cons_of_isSome _ (by rw [hp]; rfl)]
  rw [hp]
  rfl

theorem seriesScanAux_finds (pats : List (List Char → Option (List Char))) :
    ∀ (mid : List (List Char)) (a cur : List Char) (rest : List (List Char)),
      (∀ x ∈ mid, firstPatternCapture pats x = none) →
      (firstPatternCapture pats cur).isSome = true →
      seriesScanAux pats a (mid ++ cur :: rest) = (a :: mid).getLast?
  | [], a, cur, rest, _, hcur => by
      simp only [List.nil_append, seriesScanAux, hcur, if_true]
      rfl
  | m :: ms, a, cur, rest, hmid, hcur => by
      rw [List.cons_append, seriesScanAux]
      have hm := hmid m (by simp)
      simp only [hm, Option.isSome_none, Bool.false_eq_true, if_false]
      rw [seriesScanAux_finds pats ms m cur rest (fun x hx => hmid x (by simp [hx])) hcur]
      exact (List.getLast?_cons_cons).symm

theorem extract_parent_info_nomatch (cfg : Config) (path : String)
    (h : ∀ part ∈ pathParts path,
      firstPatternCapture cfg.seasonPatterns part.toList = none) :
    extract_parent_info cfg path = [] := by
  by_cases hp : cfg.parentEnabled
  · have hscan : seasonScan cfg.seasonPatterns ((pathParts path).map String.toList)
        = none := by
      rw [seasonScan]
      apply findSome?_none
      intro x hx
      rw [List.mem_reverse] at hx
      obtain ⟨part, hpart, rfl⟩ := List.mem_map.mp hx
      rw [h part hpart]
      rfl
    simp [extract_parent_info, hp, hscan]
  · simp [extract_parent_info, hp]

/-- C5 counterexample: on the path /A/S01/B/S02/f.mkv with the default
season patterns the season comes from the rightmost matching segment S02,
but the series name is the parent of the leftmost matching segment S01,
giving A rather than B, the parent of the season-bearing segment. -/
theorem c5_counterexample :
    extract_parent_info cfgDefault "/A/S01/B/S02/f.mkv"
        = [("season", "02"), ("series_name", "A")]
    ∧ extract_parent_info cfgDefault "/A/S01/B/S02/f.mkv"
        ≠ [("season", "02"), ("series_name", "B")] := by
  constructor
  · decide
  · decide

/-- C5 (amended): the season scan walks segments from the rightmost toward
the root, stops at the first segment matching any pattern and zero-pads the
capture to two digits; when no segment matches, nothing is extracted; the
series name however comes from the predecessor of the leftmost segment (at
index at least 1) matching any pattern, which is the parent of the
season-bearing segment only when a single segment matches; the example path
.../MySeries/S02/episode.mkv yields season 02 and series MySeries. -/
theorem c5_folder_extraction :
    (extract_parent_info cfgDefault "/data/MySeries/S02/episode.mkv"
        = [("season", "02"), ("series_name", "MySeries")])
    ∧ (∀ (pats : List (List Char → Option (List Char))) (pre post : List (List Char))
        (p ds : List Char),
        (∀ x ∈ post, firstPatternCapture pats x = none) →
        firstPatternCapture pats p = some ds →
        seasonScan pats (pre ++ p :: post) = some (zfill 2 ds))
    ∧ (∀ (pats : List (List Char → Option (List Char))) (a : List Char)
        (mid : List (List Char)) (cur : List Char) (rest : List (List Char)),
        (∀ x ∈ mid, firstPatternCapture pats x = none) →
        (firstPatternCapture pats cur).isSome = true →
        seriesScan pats (a :: (mid ++ cur :: rest)) = (a :: mid).getLast?)
    ∧ (∀ (cfg : Config) (path : String),
        (∀ part ∈ pathParts path,
          firstPatternCapture cfg.seasonPatterns part.toList = none) →
        extract_parent_info cfg path = []) :=
  ⟨by decide,
   seasonScan_rightmost,
   fun pats a mid cur rest hmid hcur => seriesScanAux_finds pats mid a cur rest hmid hcur,
   extract_parent_info_nomatch⟩

theorem c5_folder_extraction_witness :
    seasonScan defaultSeasonPatterns
        ["MySeries".toList, "S02".toList, "episode.mkv".toList]
      = some "02".toList
    ∧ seriesScan defaultSeasonPatterns
        ["data".toList, "MySeries".toList, "S02".toList]
      = some "MySeries".toList
    ∧ extract_parent_info cfgDefault "/x/y/z.mkv" = [] :=
  ⟨by
    have h := c5_folder_extraction.2.1 defaultSeasonPatterns
      ["MySeries".toList] ["episode.mkv".toList] "S02".toList "02".toList
      (by decide) (by decide)
    simpa using h,
   by
    have h := c5_folder_extraction.2.2.1 defaultSeasonPatterns
      "data".toList ["MySeries".toList] "S02".toList []
      (by decide) (by decide)
    simpa using h,
   c5_folder_extraction.2.2.2 cfgDefault "/x/y/z.mkv" (by decide)⟩

/-- C9: when the template references a field missing from the fully
resolved field map, generate_output returns the descriptive string naming
the missing field (the caught KeyError), not an escaping exception. -/
theorem c9_missing_field (r : RegexRule) (extracted : List (String × Option String))
    (extension file_path : String) (custom_season : Option String)
    (apply_folder_info : Bool) (f : String)
    (h : renderFormat (resolvedFields r extracted file_path apply_folder_info)
      r.output_format.toList = .error (.missing f)) :
    generate_output r extracted extension file_path custom_season apply_folder_info
      = .ok (errString f) := by
  rw [generate_output]
  simp only [h]

theorem c9_missing_field_witness :
    renderFormat (resolvedFields demoFmtRule [("episode", some "07")] "" false)
        demoFmtRule.output_format.toList = .error (.missing "series")
    ∧ generate_output demoFmtRule [("episode", some "07")] ".mkv" "" none false
        = .ok (errString "series") :=
  ⟨by rfl,
   c9_missing_field demoFmtRule [("episode", some "07")] ".mkv" "" none false "series"
     (by rfl)⟩

/-- C8 counterexample: with a year_pattern configured that does not match
the numeric episode 500, and max_episode 100 exceeded, the code takes the
elif branch and never consults max_episode: the episode stays 500 instead
of falling back to 01 with title (500). -/
theorem c8_counterexample :
    dlookup (resolvedFields demoMovieRule2
        [("series", some "Film"), ("episode", some "500"), ("title", some "")] "" false)
        "episode" = some "500"
    ∧ generate_output demoMovieRule2
        [("series", some "Film"), ("episode", some "500"), ("title", some "")]
        ".mkv" "" none false = .ok "Film S01E500.mkv" := by
  constructor
  · decide
  · rfl

/-- C8 (amended): for a purely numeric episode, a configured and matching
year_pattern resets the episode to 01 and fills an empty title with the
parenthesised year; when year_pattern is configured but does not match, the
episode is left alone even if max_episode is exceeded (the elif consults
max_episode only when no year_pattern key exists); when year_pattern is
absent, an episode above max_episode gets the same year fallback; episode
2020 with a 4-digit year pattern yields episode 01 and title (2020). -/
theorem c8_year_reinterpretation :
    (∀ (sh : SpecialHandling) (d : List (String × String)) (p : String → Bool)
        (ep : String),
      sh.year_pattern = some p → dmem d "episode" = true → sh.isTruthy = true →
      (dlookup d "episode").getD "" = ep → ep ≠ "" → ep.toList.all Char.isDigit →
      p ep = true →
      episodeSpecial sh d =
        (if (dlookup (dset d "episode" "01") "title").getD "" = "" then
          dset (dset d "episode" "01") "title" ("(" ++ ep ++ ")")
        else dset d "episode" "01"))
    ∧ (∀ (sh : SpecialHandling) (d : List (String × String)) (p : String → Bool)
        (ep : String),
      sh.year_pattern = some p → dmem d "episode" = true → sh.isTruthy = true →
      (dlookup d "episode").getD "" = ep → ep ≠ "" → ep.toList.all Char.isDigit →
      p ep = false →
      episodeSpecial sh d = d)
    ∧ (∀ (sh : SpecialHandling) (d : List (String × String)) (m : Int) (ep : String),
      sh.year_pattern = none → sh.max_episode = some m →
      dmem d "episode" = true → sh.isTruthy = true →
      (dlookup d "episode").getD "" = ep → ep ≠ "" → ep.toList.all Char.isDigit →
      m < (digitsToNat ep.toList : Int) →
      episodeSpecial sh d =
        (if (dlookup (dset d "episode" "01") "title").getD "" = "" then
          dset (dset d "episode" "01") "title" ("(" ++ ep ++ ")")
        else dset d "episode" "01"))
    ∧ generate_output demoMovieRule
        [("series", some "Film"), ("episode", some "2020"), ("title", some "")]
        ".mkv" "" none false = .ok "Film S01E01 - (2020).mkv" := by
  refine ⟨?_, ?_, ?_, by rfl⟩
  · intro sh d p ep hyp hmem htr hep hne hdig hmatch
    rw [episodeSpecial, if_pos ⟨hmem, htr⟩]
    simp only [hep, hyp]
    rw [if_pos ⟨hne, hdig⟩, if_pos hmatch]
  · intro sh d p ep hyp hmem htr hep hne hdig hmatch
    rw [episodeSpecial, if_pos ⟨hmem, htr⟩]
    simp only [hep, hyp]
    rw [if_pos ⟨hne, hdig⟩, if_neg (by simp [hmatch])]
  · intro sh d m ep hyp hmax hmem htr hep hne hdig hlt
    rw [episodeSpecial, if_pos ⟨hmem, htr⟩]
    simp only [hep, hyp, hmax]
    rw [if_pos ⟨hne, hdig⟩, if_pos hlt]

theorem c8_year_reinterpretation_witness :
    dmem [("episode", "2020")] "episode" = true
    ∧ demoMovieSH.isTruthy = true
    ∧ yearPat "2020" = true
    ∧ episodeSpecial demoMovieSH [("episode", "2020")]
        = [("episode", "01"), ("title", "(2020)")] := by
  refine ⟨by decide, by decide, by decide, ?_⟩
  have h := c8_year_reinterpretation.1 demoMovieSH [("episode", "2020")] yearPat "2020"
    rfl (by decide) (by decide) (by decide) (by decide) (by decide) (by decide)
  rw [h]
  decide

theorem strContains_cons (n : List Char) (c : Char) (t : List Char) :
    strContains n (c :: t) = (n.isPrefixOf (c :: t) || strContains n t) := by
  simp [strContains, List.tails_cons]

theorem hasSDigit_cons (c : Char) (rest : List Char) :
    hasSDigit (c :: rest)
      = ((c == 'S' && rest.head?.any Char.isDigit) || hasSDigit rest) := by
  cases rest <;> simp [hasSDigit, List.tails_cons]

theorem subSeasonAux_false_head (rep : List Char) (r : Char) (rs : List Char) :
    (subSeasonAux rep false (r :: rs)).head? = some 'S'
    ∨ (subSeasonAux rep false (r :: rs)).head? = some r := by
  simp only [subSeasonAux]
  rw [if_neg (by simp)]
  split
  · left; rfl
  · right; rfl

theorem subSeason03_no_S02 (l : List Char) : ∀ b : Bool,
    strContains ['S', '0', '2'] (subSeasonAux ['0', '3'] b l) = false := by
  induction l with
  | nil =>
      intro b
      simp only [subSeasonAux]
      decide
  | cons c rest ih =>
      intro b
      simp only [subSeasonAux]
      by_cases h1 : b = true ∧ c.isDigit = true
      · rw [if_pos h1]
        exact ih true
      · rw [if_neg h1]
        by_cases h2 : (c == 'S') = true ∧ rest.head?.any Char.isDigit = true
        · rw [if_pos h2]
          have e1 : (('2' : Char) == '3') = false := by decide
          have e2 : (('S' : Char) == '0') = false := by decide
          have e3 : (('S' : Char) == '3') = false := by decide
          show strContains ['S', '0', '2']
            ('S' :: '0' :: '3' :: subSeasonAux ['0', '3'] true rest) = false
          rw [strContains_cons, strContains_cons, strContains_cons, ih true,
            Bool.or_false]
          simp [List.isPrefixOf, e1, e2, e3]
        · rw [if_neg h2]
          rw [strContains_cons, ih false, Bool.or_false]
          by_cases hc : c = 'S'
          · subst hc
            have hd : rest.head?.any Char.isDigit = false := by
              cases hx : rest.head?.any Char.isDigit
              · rfl
              · exact absurd ⟨rfl, hx⟩ h2
            cases rest with
            | nil =>
                simp only [subSeasonAux]
                decide
            | cons r rs =>
                have hr : r.isDigit = false := by simpa using hd
                cases hYe : subSeasonAux ['0', '3'] false (r :: rs) with
                | nil => decide
                | cons y ys =>
                    have hhead := subSeasonAux_false_head ['0', '3'] r rs
                    rw [hYe] at hhead
                    have hy : y = 'S' ∨ y = r := by
                      rcases hhead with h | h
                      · left; exact Option.some.inj h
                      · right; exact Option.some.inj h
                    have h0 : (('0' : Char) == y) = false := by
                      rcases hy with h | h <;> subst h
                      · decide
                      · apply beq_eq_false_iff_ne.mpr
                        intro hq
                        rw [← hq] at hr
                        exact absurd hr (by decide)
                    simp [List.isPrefixOf, h0]
          · have hcS : (('S' : Char) == c) = false := by
              apply beq_eq_false_iff_ne.mpr
              exact fun h => hc h.symm
            simp [List.isPrefixOf, hcS]

theorem subSeason03_has_S03 (l : List Char) : ∀ b : Bool, hasSDigit l = true →
    strContains ['S', '0', '3'] (subSeasonAux ['0', '3'] b l) = true := by
  induction l with
  | nil =>
      intro b h
      exact absurd h (by decide)
  | cons c rest ih =>
      intro b h
      rw [hasSDigit_cons] at h
      simp only [subSeasonAux]
      by_cases h1 : b = true ∧ c.isDigit = true
      · rw [if_pos h1]
        have hcS : (c == 'S') = false := by
          apply beq_eq_false_iff_ne.mpr
          intro hq
          rw [hq] at h1
          exact absurd h1.2 (by decide)
        simp only [hcS, Bool.false_and, Bool.false_or] at h
        exact ih true h
      · rw [if_neg h1]
        by_cases h2 : (c == 'S') = true ∧ rest.head?.any Char.isDigit = true
        · rw [if_pos h2]
          show strContains ['S', '0', '3']
            ('S' :: '0' :: '3' :: subSeasonAux ['0', '3'] true rest) = true
          rw [strContains_cons]
          simp [List.isPrefixOf]
        · rw [if_neg h2]
          have hS : (c == 'S' && rest.head?.any Char.isDigit) = false := by
            cases hx : (c == 'S' && rest.head?.any Char.isDigit)
            · rfl
            · exact absurd (by simpa using hx) h2
          rw [hS, Bool.false_or] at h
          rw [strContains_cons, ih false h, Bool.or_true]

/-- C3 (amended): custom season always wins and is zero-padded, but the
season substitution re.sub replaces every S-digit token in the rendered
output, not only the first: with replacement 03 the result never contains
S02 and contains S03 whenever any S-digit token was present; in the full
pipeline with customSeason 03 and a folder-derived season 02 both rendered
tokens S01 and S04 become S03. -/
theorem c3_season_substitution :
    (∀ (cfg : Config) (d : List (String × String)) (s : String), s ≠ "" →
      resolveSeason cfg (some s) d = some (String.mk (zfill 2 s.toList)))
    ∧ (∀ l : List Char, strContains ['S', '0', '2'] (subSeason ['0', '3'] l) = false)
    ∧ (∀ l : List Char, hasSDigit l = true →
        strContains ['S', '0', '3'] (subSeason ['0', '3'] l) = true)
    ∧ generate_output demoSeasonRule [("series", some "A"), ("episode", some "05")]
        ".mkv" "/X/S02/f.mkv" (some "03") true = .ok "X S03E05 S03.mkv" := by
  refine ⟨?_, fun l => subSeason03_no_S02 l false,
    fun l h => subSeason03_has_S03 l false h, by rfl⟩
  intro cfg d s hs
  rw [resolveSeason, if_pos ⟨rfl, by simp [hs]⟩]
  rfl

/-- C3 counterexample: the same call replaces the second S-digit token S04
as well, so the output differs from the first-occurrence-only prediction. -/
theorem c3_counterexample :
    generate_output demoSeasonRule [("series", some "A"), ("episode", some "05")]
        ".mkv" "/X/S02/f.mkv" (some "03") true = .ok "X S03E05 S03.mkv"
    ∧ generate_output demoSeasonRule [("series", some "A"), ("episode", some "05")]
        ".mkv" "/X/S02/f.mkv" (some "03") true ≠ .ok "X S03E05 S04.mkv" := by
  constructor
  · rfl
  · intro h
    have h1 : (Except.ok "X S03E05 S03.mkv" : Except String String)
        = Except.ok "X S03E05 S04.mkv" := h
    exact absurd (Except.ok.inj h1) (by decide)

/-- C10: a filename ending in .tc.ass keeps the compound extension, any
other filename gets its final suffix, and a concrete .tc.ass match result
ends in the full .tc.ass. -/
theorem c10_compound_extension :
    (∀ (r : RegexRule) (f : String) (ct fp cs : Option String),
      ".tc.ass".toList.isSuffixOf f.toList = true →
      match_filename_with_rule r f ct fp cs = mfwrWithExt r f ct fp cs ".tc.ass")
    ∧ (∀ (r : RegexRule) (f : String) (ct fp cs : Option String),
      ".tc.ass".toList.isSuffixOf f.toList = false →
      match_filename_with_rule r f ct fp cs = mfwrWithExt r f ct fp cs (pySuffix f))
    ∧ match_filename_with_rule demoSubRule "[X] Show 05.tc.ass" none none none
        = .ok (true, "Show S01E05.tc.ass",
            pyDictRepr [("series", some "Show"), ("episode", some "05")]) := by
  refine ⟨?_, ?_, by rfl⟩
  · intro r f ct fp cs h
    simp only [match_filename_with_rule, mfwrWithExt]
    rw [if_pos h]
  · intro r f ct fp cs h
    have hne : ¬(".tc.ass".toList.isSuffixOf f.toList = true) := by
      rw [h]
      exact Bool.false_ne_true
    simp only [match_filename_with_rule, mfwrWithExt]
    rw [if_neg hne]

theorem c10_compound_extension_witness :
    ".tc.ass".toList.isSuffixOf "[X] Show 05.tc.ass".toList = true
    ∧ match_filename_with_rule demoSubRule "[X] Show 05.tc.ass" none none none
        = mfwrWithExt demoSubRule "[X] Show 05.tc.ass" none none none ".tc.ass"
    ∧ ".tc.ass".toList.isSuffixOf "ep.ass".toList = false
    ∧ match_filename_with_rule demoSubRule "ep.ass" none none none
        = mfwrWithExt demoSubRule "ep.ass" none none none (pySuffix "ep.ass") :=
  ⟨by decide,
   c10_compound_extension.1 demoSubRule "[X] Show 05.tc.ass" none none none (by decide),
   by decide,
   c10_compound_extension.2.1 demoSubRule "ep.ass" none none none (by decide)⟩

theorem c3_season_substitution_witness :
    ("3" : String) ≠ ""
    ∧ resolveSeason cfgDefault (some "3") [] = some "03"
    ∧ strContains ['S', '0', '2'] (subSeason ['0', '3'] "A S01 B S02E07".toList) = false
    ∧ hasSDigit "A S01 B S02E07".toList = true
    ∧ strContains ['S', '0', '3'] (subSeason ['0', '3'] "A S01 B S02E07".toList) = true := by
  refine ⟨by decide, ?_, c3_season_substitution.2.1 _, by decide,
    c3_season_substitution.2.2.1 _ (by decide)⟩
  have h := c3_season_substitution.1 cfgDefault [] "3" (by decide)
  rw [h]
  rfl

end MR
